import Mathlib

/-
Verification of the Shellhacks-2025 website-localization pipeline.

Strings are modelled as lists of characters (`Str`), matching Python `str`
over the ASCII texts the pipeline handles; `len` is `List.length`, slicing
is `List.take`/`List.drop`, `in` is substring/membership as in Python.
The external LLM ("translation capability") is an opaque parameter
`Str → Option Str`: `some r` models a reply with text `r`, `none` models
the call raising an exception.  All other behaviour is translated from the
repository sources (`fullstack_app/backend/translation_agency/agent.py`,
`fullstack_app/backend/main.py`, `translation_agency_v2/batch_processor.py`,
`translation_agency_v2/char_limit_validator.py`).
-/

abbrev Str := List Char

/-- Python `str.lower()` restricted to ASCII (the pipeline's constants are ASCII). -/
def lowerStr (s : Str) : Str := s.map Char.toLower

/-- Boolean list-prefix test (first argument is a prefix of the second). -/
def startsWithL : Str → Str → Bool
  | [], _ => true
  | _ :: _, [] => false
  | a :: as, b :: bs => a == b && startsWithL as bs

/-- Python substring test `needle in hay` (case-sensitive). -/
def containsSub (needle : Str) : Str → Bool
  | [] => needle.isEmpty
  | c :: t => startsWithL needle (c :: t) || containsSub needle t

/-- Case-insensitive substring test, Python `needle.lower() in hay.lower()`. -/
def ciContains (needle hay : Str) : Bool :=
  containsSub (lowerStr needle) (lowerStr hay)

/-- Python whitespace characters recognised by `str.strip()` (ASCII range). -/
def isPySpace (c : Char) : Bool :=
  c == ' ' || c == '\t' || c == '\n' || c == '\r' || c == Char.ofNat 11 || c == Char.ofNat 12

/-- Python `str.strip()`. -/
def pyStrip (s : Str) : Str :=
  ((s.dropWhile isPySpace).reverse.dropWhile isPySpace).reverse

/-- Python `str.rstrip(c)` for a single character. -/
def rstripChar (c : Char) (s : Str) : Str :=
  (s.reverse.dropWhile (fun d => d == c)).reverse

/-- Scanner for Python `str.replace(needle, repl)` (leftmost non-overlapping
case-sensitive replacement).  The `fuel` argument makes the recursion
structural; every step consumes at least one character of `hay`, so fuel
`hay.length` (as supplied by `replaceAllCS`) never runs out. -/
def replaceAllCSF : Nat → Str → Str → Str → Str
  | 0, _, _, hay => hay
  | _ + 1, [], _, hay => hay
  | _ + 1, _ :: _, _, [] => []
  | fuel + 1, n :: ns, repl, c :: t =>
    if startsWithL (n :: ns) (c :: t)
    then repl ++ replaceAllCSF fuel (n :: ns) repl ((c :: t).drop (n :: ns).length)
    else c :: replaceAllCSF fuel (n :: ns) repl t

/-- Python `str.replace(needle, repl)`.  An empty needle (where Python would
intersperse `repl`) never occurs at the pipeline's call sites and is mapped
to the identity. -/
def replaceAllCS (needle repl hay : Str) : Str := replaceAllCSF hay.length needle repl hay

/-- Scanner for `re.sub(re.escape(term), repl, hay, flags=IGNORECASE)`: every
case-insensitive occurrence of the literal is replaced by `repl`, scanning
left to right without rescanning replacements.  The `fuel` argument makes the
recursion structural; every step consumes at least one character of `hay`. -/
def ciReplaceAllF : Nat → Str → Str → Str → Str
  | 0, _, _, hay => hay
  | _ + 1, [], _, hay => hay
  | _ + 1, _ :: _, _, [] => []
  | fuel + 1, n :: ns, repl, c :: t =>
    if startsWithL (lowerStr (n :: ns)) (lowerStr (c :: t))
    then repl ++ ciReplaceAllF fuel (n :: ns) repl ((c :: t).drop (n :: ns).length)
    else c :: ciReplaceAllF fuel (n :: ns) repl t

/-- Case-insensitive literal regex substitution.  An empty pattern never
occurs at the call sites and is mapped to the identity. -/
def ciReplaceAll (needle repl hay : Str) : Str := ciReplaceAllF hay.length needle repl hay

/-- `re.compile(re.escape(needle), IGNORECASE).search(hay)` and `match.group(0)`:
the slice of `hay` (original casing) at the first case-insensitive occurrence. -/
def ciFirstOcc (needle : Str) : Str → Option Str
  | [] => if needle.isEmpty then some [] else none
  | c :: t =>
    if startsWithL (lowerStr needle) (lowerStr (c :: t))
    then some ((c :: t).take needle.length)
    else ciFirstOcc needle t

/-- Regex word character (`\w` over ASCII). -/
def isWordChar (c : Char) : Bool := c.isAlpha || c.isDigit || c == '_'

/-- Word-ness of an optional character; the edge of the string counts as non-word. -/
def wordO : Option Char → Bool
  | none => false
  | some c => isWordChar c

/-- A `\b` boundary holds between two (optional) characters iff their word-ness differs. -/
def boundaryAt (x y : Option Char) : Bool := wordO x != wordO y

/-- Scanner for `re.sub(r'\b' + re.escape(term) + r'\b', repl, hay, IGNORECASE)`:
`prev` is the character preceding the current position in the original string.
The `fuel` argument makes the recursion structural; every step consumes at
least one character of `hay`. -/
def wbCiSubF : Nat → Str → Str → Option Char → Str → Str
  | 0, _, _, _, hay => hay
  | _ + 1, _, _, _, [] => []
  | _ + 1, [], _, _, hay => hay
  | fuel + 1, t0 :: ts, repl, prev, c :: t =>
    if startsWithL (lowerStr (t0 :: ts)) (lowerStr (c :: t))
       && boundaryAt prev (some c)
       && boundaryAt (((c :: t).take (t0 :: ts).length).getLast?) ((c :: t).drop (t0 :: ts).length).head?
    then repl ++ wbCiSubF fuel (t0 :: ts) repl (((c :: t).take (t0 :: ts).length).getLast?) ((c :: t).drop (t0 :: ts).length)
    else c :: wbCiSubF fuel (t0 :: ts) repl (some c) t

/-- Whole-word case-insensitive glossary replacement (step 2 of
`apply_translation_rules`).  Glossary terms are non-empty at every call site. -/
def wbCiReplaceAll (term repl hay : Str) : Str :=
  match term with
  | [] => hay
  | _ :: _ => wbCiSubF hay.length term repl none hay

/-- Decimal rendering of a natural number (Python f-string interpolation). -/
def natToStr (n : Nat) : Str := Nat.toDigits 10 n

/-
Component: Constraint Store — length budgets
(`calculate_max_chars`, fullstack_app/backend/translation_agency/agent.py)
-/

/-- Number of binary digits of a natural number (0 for 0), by fuel-based
structural recursion: the number itself bounds its digit count, so the fuel
never runs out, and the kernel can evaluate the definition. -/
def bitLenF : Nat → Nat → Nat
  | 0, _ => 0
  | fuel + 1, n => if n = 0 then 0 else bitLenF fuel (n / 2) + 1

/-- Number of binary digits of `n`. -/
def bitLen (n : Nat) : Nat := bitLenF n n

/-- Round `num / 2 ^ drop` to the nearest integer, ties to even — the IEEE-754
default rounding that CPython floats use. -/
def rnEven (num drop : Nat) : Nat :=
  if drop = 0 then num
  else
    let q := num / 2 ^ drop
    let r := num % 2 ^ drop
    let half := 2 ^ (drop - 1)
    if half < r then q + 1
    else if r = half then (if q % 2 = 1 then q + 1 else q) else q

/-- Significand of the IEEE-754 double nearest `a / b` for `1 ≤ a/b < 2`: the
double is `nearestDouble52 a b / 2 ^ 52`.  The formula is
`round(a * 2 ^ 52 / b)` written with natural division; none of the decimal
literals of `calculate_max_chars` falls exactly on a rounding tie, so
truncating the doubled sum is exact round-to-nearest for them. -/
def nearestDouble52 (a b : Nat) : Nat := (2 ^ 53 * a + b) / (2 * b)

/-- Significand of the IEEE-754 double nearest `a / b` for `1/4 ≤ a/b < 1/2`
(the range of the literal 0.3): the double is `nearestDouble54 a b / 2 ^ 54`. -/
def nearestDouble54 (a b : Nat) : Nat := (2 ^ 55 * a + b) / (2 * b)

/-- `float(n)` for a non-negative Python int `n`, as an exact natural number:
round to 53 significant bits, ties to even (the identity below `2 ^ 53`). -/
def floatOfNat (n : Nat) : Nat :=
  let d := bitLen n - 53
  rnEven n d * 2 ^ d

/-- The Python float addition `expansion + 0.3` where `expansion` is the double
`m / 2 ^ 52`: the exact dyadic sum `(4 * m + double(0.3)) / 2 ^ 54`, rounded to
53 significant bits.  Returns `(num, shift)` with value `num / 2 ^ shift`. -/
def fpAdd03 (m : Nat) : Nat × Nat :=
  let s := 4 * m + nearestDouble54 3 10
  let d := bitLen s - 53
  (rnEven s d, 54 - d)

/-- `int(float(n) * x)` for the double `x = num / 2 ^ shift`: the exact product
is rounded to 53 significant bits (one IEEE multiplication), then truncated
toward zero (`int()` on a non-negative float is floor). -/
def fpMulIntFloor (n num shift : Nat) : Nat :=
  let p := n * num
  let d := bitLen p - 53
  rnEven p d * 2 ^ d / 2 ^ shift

/-- The budget computation of `calculate_max_chars` as a function of the
per-language factor significand `m` (factor double = `m / 2 ^ 52`): very short
texts (≤ 10) get factor 2.0 (the exact double `2 ^ 53 / 2 ^ 52`), mid-length
texts (≤ 30) the float sum `factor + 0.3`, long texts the factor itself;
the result is `int(original_length * max_expansion)` in binary floating
point. -/
def budget_of (n m : Nat) : Nat :=
  let nf := floatOfNat n
  if n ≤ 10 then fpMulIntFloor nf (2 ^ 53) 52
  else if n ≤ 30 then
    let s := fpAdd03 m
    fpMulIntFloor nf s.1 s.2
  else fpMulIntFloor nf m 52

/-- Per-language expansion factors of `calculate_max_chars`: the IEEE-754
doubles of Python's literals 1.25/1.3/1.4/1.25/1.2 with default 1.3,
represented by their significands (value = significand / 2 ^ 52). -/
def expansion_factors (lang : Str) : Nat :=
  if lang = ( "Spanish".data) then nearestDouble52 5 4
  else if lang = ( "French".data) then nearestDouble52 13 10
  else if lang = ( "German".data) then nearestDouble52 7 5
  else if lang = ( "Portuguese".data) then nearestDouble52 5 4
  else if lang = ( "Italian".data) then nearestDouble52 6 5
  else nearestDouble52 13 10

/-- `calculate_max_chars(original_length, target_language)` with CPython's
binary floating-point arithmetic modelled exactly. -/
def calculate_max_chars (original_length : Nat) (target_language : Str) : Nat :=
  budget_of original_length (expansion_factors target_language)

/-- Spec-side per-language base factors as exact decimals scaled by 100
(1.25/1.3/1.4/1.25/1.2, default 1.3), for comparison with the program. -/
def expansion_factor_pct (lang : Str) : Nat :=
  if lang = ( "Spanish".data) then 125
  else if lang = ( "French".data) then 130
  else if lang = ( "German".data) then 140
  else if lang = ( "Portuguese".data) then 125
  else if lang = ( "Italian".data) then 120
  else 130

/-- The spec-side budget formula in exact decimal arithmetic, as a function of
the 100-scaled factor: `int(n * f)` with `f = 2.0` for `n ≤ 10`, the base
factor plus 0.3 for `10 < n ≤ 30`, and the base factor for `n > 30`. -/
def spec_budget_of (n f : Nat) : Nat :=
  let g := if n ≤ 10 then 200 else if n ≤ 30 then f + 30 else f
  n * g / 100

/-- The length-budget formula exactly as the specification words it, with the
decimal factor values taken at face value. -/
def length_budget_spec (n : Nat) (target_language : Str) : Nat :=
  spec_budget_of n (expansion_factor_pct target_language)

/-- C3 (counterexample): Python evaluates `int(45 * 1.4)` in binary floating
point, where the double nearest 1.4 lies just below it and the rounded product
is 62.99999999999999; a German original of length 45 therefore gets budget 62,
while the exact decimal formula `int(n * f)` of the claim gives 63. -/
theorem calculate_max_chars_float_divergence :
    calculate_max_chars 45 ( "German".data) = 62 ∧
    length_budget_spec 45 ( "German".data) = 63 :=
  ⟨rfl, rfl⟩

/-- Every target language resolves to one of the four distinct factor doubles,
paired with its exact decimal percentage. -/
theorem expansion_factors_cases (L : Str) :
    (expansion_factors L = nearestDouble52 5 4 ∧ expansion_factor_pct L = 125) ∨
    (expansion_factors L = nearestDouble52 13 10 ∧ expansion_factor_pct L = 130) ∨
    (expansion_factors L = nearestDouble52 7 5 ∧ expansion_factor_pct L = 140) ∨
    (expansion_factors L = nearestDouble52 6 5 ∧ expansion_factor_pct L = 120) := by
  unfold expansion_factors expansion_factor_pct
  split_ifs <;> simp

/-- For factor 1.25 and every length up to 1000, the float budget is the
decimal budget or falls one short of it. -/
theorem budget_bounds_125 :
    ∀ n, n < 1001 → 10 < n →
      spec_budget_of n 125 - 1 ≤ budget_of n (nearestDouble52 5 4) ∧
      budget_of n (nearestDouble52 5 4) ≤ spec_budget_of n 125 := by
  set_option maxRecDepth 10000 in decide

/-- For factor 1.3 and every length up to 1000, the float budget is the
decimal budget or falls one short of it. -/
theorem budget_bounds_130 :
    ∀ n, n < 1001 → 10 < n →
      spec_budget_of n 130 - 1 ≤ budget_of n (nearestDouble52 13 10) ∧
      budget_of n (nearestDouble52 13 10) ≤ spec_budget_of n 130 := by
  set_option maxRecDepth 10000 in decide

/-- For factor 1.4 and every length up to 1000, the float budget is the
decimal budget or falls one short of it. -/
theorem budget_bounds_140 :
    ∀ n, n < 1001 → 10 < n →
      spec_budget_of n 140 - 1 ≤ budget_of n (nearestDouble52 7 5) ∧
      budget_of n (nearestDouble52 7 5) ≤ spec_budget_of n 140 := by
  set_option maxRecDepth 10000 in decide

/-- For factor 1.2 and every length up to 1000, the float budget is the
decimal budget or falls one short of it. -/
theorem budget_bounds_120 :
    ∀ n, n < 1001 → 10 < n →
      spec_budget_of n 120 - 1 ≤ budget_of n (nearestDouble52 6 5) ∧
      budget_of n (nearestDouble52 6 5) ≤ spec_budget_of n 120 := by
  set_option maxRecDepth 10000 in decide

/-- C3 (amended): for every target language the budget of an original of
length `n ≤ 10` is exactly `2 * n` (multiplication by 2.0 is exact in binary
floating point); for `10 < n ≤ 1000` the budget never exceeds the claimed
decimal formula `int(n * f)` and falls at most one below it (the float
product can land just under an exact integer, as at 45 × 1.4); an original
of length 8 yields a budget of 16; and every per-language factor double lies
between the doubles of 1.2 and 1.4. -/
theorem calculate_max_chars_float_budget :
    (∀ (L : Str) (n : Nat), n ≤ 10 → calculate_max_chars n L = 2 * n) ∧
    (∀ (L : Str) (n : Nat), n < 1001 → 10 < n →
       length_budget_spec n L - 1 ≤ calculate_max_chars n L ∧
       calculate_max_chars n L ≤ length_budget_spec n L) ∧
    (∀ L : Str, calculate_max_chars 8 L = 16) ∧
    (∀ L : Str, nearestDouble52 6 5 ≤ expansion_factors L ∧
       expansion_factors L ≤ nearestDouble52 7 5) := by
  refine ⟨?_, ?_, ?_, ?_⟩
  · intro L n h
    interval_cases n <;> rfl
  · intro L n hn h10
    rcases expansion_factors_cases L with ⟨h1, h2⟩ | ⟨h1, h2⟩ | ⟨h1, h2⟩ | ⟨h1, h2⟩
    · simp only [calculate_max_chars, length_budget_spec, h1, h2]
      exact budget_bounds_125 n hn h10
    · simp only [calculate_max_chars, length_budget_spec, h1, h2]
      exact budget_bounds_130 n hn h10
    · simp only [calculate_max_chars, length_budget_spec, h1, h2]
      exact budget_bounds_140 n hn h10
    · simp only [calculate_max_chars, length_budget_spec, h1, h2]
      exact budget_bounds_120 n hn h10
  · intro L
    rfl
  · intro L
    rcases expansion_factors_cases L with ⟨h1, _⟩ | ⟨h1, _⟩ | ⟨h1, _⟩ | ⟨h1, _⟩ <;>
      rw [h1] <;> exact ⟨by decide, by decide⟩

/-- C3 (witness): the amended budget theorem instantiated at German originals
of lengths 7 and 45, with every hypothesis discharged by computation. -/
theorem calculate_max_chars_float_budget_witness :
    calculate_max_chars 7 ( "German".data) = 2 * 7 ∧
    (length_budget_spec 45 ( "German".data) - 1 ≤ calculate_max_chars 45 ( "German".data) ∧
     calculate_max_chars 45 ( "German".data) ≤ length_budget_spec 45 ( "German".data)) :=
  ⟨calculate_max_chars_float_budget.1 ( "German".data) 7 (by decide),
   calculate_max_chars_float_budget.2.1 ( "German".data) 45 (by decide) (by decide)⟩

/-
Component: Translation Stage — `get_shorter_translation`
(fullstack_app/backend/translation_agency/agent.py)
-/

/-- Post-processing of a successful short-translation reply: strip, remove all
markdown fence markers when the reply starts with one, strip again. -/
def shortPostprocess (r : Str) : Str :=
  let s := pyStrip r
  if startsWithL ( "```".data) s then pyStrip (replaceAllCS ( "```".data) [] s) else s

/-- `get_shorter_translation(original, target_language, max_chars, ...)`.
The Gemini call is the opaque capability `cap` (prompt-only arguments —
target language, glossary, brand terms — are absorbed into it); `none`
models the call raising.  On success the post-processed reply is sliced to
`max_chars`; on exception the original is sliced to `max_chars`. -/
def get_shorter_translation (cap : Str → Option Str) (original : Str) (max_chars : Nat) : Str :=
  match cap original with
  | some response => (shortPostprocess response).take max_chars
  | none => original.take max_chars

/-- C10: `get_shorter_translation` always returns at most `max_chars`
characters and never propagates a capability exception: a successful reply
is post-processed and hard-truncated to `max_chars`, and a raising
capability yields the original truncated to `max_chars`. -/
theorem get_shorter_translation_bounded :
    ∀ (cap : Str → Option Str) (original : Str) (max_chars : Nat),
      (get_shorter_translation cap original max_chars).length ≤ max_chars ∧
      (∀ r, cap original = some r →
        get_shorter_translation cap original max_chars = (shortPostprocess r).take max_chars) ∧
      (cap original = none →
        get_shorter_translation cap original max_chars = original.take max_chars) := by
  intro cap original max_chars
  refine ⟨?_, ?_, ?_⟩
  · unfold get_shorter_translation
    cases cap original <;> simp [List.length_take]
  · intro r h
    unfold get_shorter_translation
    rw [h]
  · intro h
    unfold get_shorter_translation
    rw [h]

/-- Witness for C10 at concrete inputs: a capability answering a long string
and one that raises. -/
theorem get_shorter_translation_bounded_witness :
    get_shorter_translation (fun _ => some ( "Comprar Ahora Mismo".data)) ( "Shop Now".data) 7
        = (shortPostprocess ( "Comprar Ahora Mismo".data)).take 7 ∧
    get_shorter_translation (fun _ => none) ( "Shop Now".data) 7 = ( "Shop Now".data).take 7 :=
  ⟨(get_shorter_translation_bounded (fun _ => some ( "Comprar Ahora Mismo".data))
      ( "Shop Now".data) 7).2.1 ( "Comprar Ahora Mismo".data) rfl,
   (get_shorter_translation_bounded (fun _ => none) ( "Shop Now".data) 7).2.2 rfl⟩

/-
Component: Translation Stage — `apply_translation_rules` and helpers
(fullstack_app/backend/translation_agency/agent.py)
-/

/-- Glossary: source term ↦ (target language ↦ fixed translation), in Python
dict insertion order. -/
abbrev Glossary := List (Str × List (Str × Str))

/-- First-match association-list lookup (Python dict access over string keys). -/
def lookupF {α : Type} (k : Str) : List (Str × α) → Option α
  | [] => none
  | (k2, v) :: rest => if k2 = k then some v else lookupF k rest

/-- Post-processing of a successful `translate_with_gemini` reply: strip, then
remove markdown code fences when the reply starts with one. -/
def translate_postprocess (r : Str) : Str :=
  let t := pyStrip r
  if startsWithL ( "```json".data) t then
    pyStrip (replaceAllCS ( "```".data) [] (replaceAllCS ( "```json".data) [] t))
  else if startsWithL ( "```".data) t then
    pyStrip (replaceAllCS ( "```".data) [] t)
  else t

/-- The hardcoded Spanish fallback dictionary of `fallback_translation`. -/
def basic_spanish : List (Str × Str) :=
  [(( "Shop Now".data), ( "Comprar Ahora".data)),
   (( "Start Training Now".data), ( "Empezar a Entrenar Ahora".data)),
   (( "Read More".data), ( "Leer Más".data)),
   (( "Login".data), ( "Iniciar Sesión".data)),
   (( "Sign Up".data), ( "Registrarse".data)),
   (( "Dashboard".data), ( "Panel".data)),
   (( "Settings".data), ( "Configuración".data))]

/-- `fallback_translation(text, target_language)`: for Spanish, sequentially
replace each dictionary phrase present in the text; otherwise return the text
unchanged. -/
def fallback_translation (text target_language : Str) : Str :=
  if target_language = ( "Spanish".data) then
    basic_spanish.foldl (fun t p => if containsSub p.1 t then replaceAllCS p.1 p.2 t else t) text
  else text

/-- `translate_with_gemini(text, target_language, glossary, brand_terms)`: the
Gemini call is the opaque capability `cap` (glossary and brand terms only
shape the prompt and are absorbed into it).  A successful reply is stripped
and de-fenced; an exception falls back to `fallback_translation`. -/
def translate_with_gemini (cap : Str → Option Str) (text target_language : Str) : Str :=
  match cap text with
  | some response => translate_postprocess response
  | none => fallback_translation text target_language

/-- Step 2 of `apply_translation_rules`: for each glossary term with a
translation for the target language that occurs case-insensitively in the
current text, substitute it whole-word case-insensitively. -/
def apply_glossary (glossary : Glossary) (target_language : Str) (t : Str) : Str :=
  glossary.foldl (fun acc p =>
    match lookupF target_language p.2 with
    | some tr => if ciContains p.1 acc then wbCiReplaceAll p.1 tr acc else acc
    | none => acc) t

/-- Step 3 of `apply_translation_rules`: for each brand term occurring
case-insensitively in the *original* text, rewrite every case-insensitive
occurrence in the translated text to the exact casing of the first original
occurrence. -/
def preserve_brand_terms (text : Str) (brand_terms : List Str) (t : Str) : Str :=
  brand_terms.foldl (fun acc b =>
    if ciContains b text then
      match ciFirstOcc b text with
      | some exact => ciReplaceAll b exact acc
      | none => acc
    else acc) t

/-- `apply_translation_rules(text, target_language, glossary, brand_terms)`:
LLM translation, then glossary substitution, then brand-term restoration. -/
def apply_translation_rules (cap : Str → Option Str) (text target_language : Str)
    (glossary : Glossary) (brand_terms : List Str) : Str :=
  preserve_brand_terms text brand_terms
    (apply_glossary glossary target_language (translate_with_gemini cap text target_language))

/-- If `x` is a boolean prefix of `h`, then `x` is a substring of `h`. -/
theorem containsSub_of_sw (x h : Str) (hs : startsWithL x h = true) :
    containsSub x h = true := by
  cases h with
  | nil =>
    cases x with
    | nil => rfl
    | cons a as => simp [startsWithL] at hs
  | cons c t => simp [containsSub, hs]

/-- Any list is a boolean prefix of itself followed by anything. -/
theorem startsWithL_append (x rest : Str) : startsWithL x (x ++ rest) = true := by
  induction x with
  | nil => rfl
  | cons a as ih => simp [startsWithL, ih]

/-- `x` is a substring of `x ++ rest`. -/
theorem containsSub_append_self (x rest : Str) : containsSub x (x ++ rest) = true :=
  containsSub_of_sw x (x ++ rest) (startsWithL_append x rest)

/-- Substring containment is preserved by prepending a character. -/
theorem containsSub_cons_of (x : Str) (c : Char) (t : Str)
    (h : containsSub x t = true) : containsSub x (c :: t) = true := by
  simp [containsSub, h]

/-- Core brand-restoration lemma (fuel form): replacing every case-insensitive
occurrence of a non-empty needle by `exact` yields a string containing
`exact`, provided the needle did occur case-insensitively. -/
theorem ciReplaceAllF_contains (n0 : Char) (ns exact : Str) :
    ∀ (fuel : Nat) (hay : Str), hay.length ≤ fuel →
      containsSub (lowerStr (n0 :: ns)) (lowerStr hay) = true →
      containsSub exact (ciReplaceAllF fuel (n0 :: ns) exact hay) = true := by
  intro fuel
  induction fuel with
  | zero =>
    intro hay hlen h
    have : hay = [] := List.eq_nil_of_length_eq_zero (Nat.le_zero.mp hlen)
    subst this
    simp [lowerStr, containsSub, List.isEmpty] at h
  | succ f ih =>
    intro hay hlen h
    cases hay with
    | nil => simp [lowerStr, containsSub, List.isEmpty] at h
    | cons c t =>
      simp only [ciReplaceAllF]
      split
      · exact containsSub_append_self exact _
      · next hcond =>
        apply containsSub_cons_of
        apply ih t (by simp only [List.length_cons] at hlen; omega)
        have hl : lowerStr (c :: t) = Char.toLower c :: lowerStr t := rfl
        rw [hl, containsSub] at h
        rw [← hl] at h
        rw [Bool.not_eq_true] at hcond
        rw [hcond] at h
        simpa using h

/-- Core brand-restoration lemma on `ciReplaceAll` itself. -/
theorem ciReplaceAll_contains (n0 : Char) (ns exact : Str) :
    ∀ hay, containsSub (lowerStr (n0 :: ns)) (lowerStr hay) = true →
      containsSub exact (ciReplaceAll (n0 :: ns) exact hay) = true :=
  fun hay h => ciReplaceAllF_contains n0 ns exact hay.length hay le_rfl h

/-- A first case-insensitive occurrence implies case-insensitive containment. -/
theorem ciFirstOcc_some_ciContains (n : Str) (hn : n ≠ []) :
    ∀ hay e, ciFirstOcc n hay = some e → ciContains n hay = true := by
  intro hay
  induction hay with
  | nil =>
    intro e h
    simp only [ciFirstOcc] at h
    split at h
    · next hemp => exact absurd (List.isEmpty_iff.mp hemp) hn
    · exact absurd h (by simp)
  | cons c t ih =>
    intro e h
    simp only [ciFirstOcc] at h
    split at h
    · next hsw =>
      unfold ciContains
      have hl : lowerStr (c :: t) = Char.toLower c :: lowerStr t := rfl
      rw [hl, containsSub, ← hl, hsw]
      simp
    · next hsw =>
      unfold ciContains
      have hl : lowerStr (c :: t) = Char.toLower c :: lowerStr t := rfl
      rw [hl, containsSub, ← hl]
      have := ih e h
      unfold ciContains at this
      simp [this]

/-- C1 (counterexample): with brand term "Octopi" present in the original, a
capability reply that lost the brand entirely is returned as-is — the final
value does not contain the brand term, contradicting the claim that it is
restored regardless of what the capability returned. -/
theorem apply_translation_rules_brand_loss :
    apply_translation_rules (fun _ => some ( "Pulpo".data)) ( "Octopi".data)
        ( "Spanish".data) [] [( "Octopi".data)] = ( "Pulpo".data) ∧
    containsSub ( "Octopi".data) ( "Pulpo".data) = false ∧
    ciContains ( "Octopi".data) ( "Octopi".data) = true := by
  refine ⟨by decide, by decide, by decide⟩

/-- C1 (amended): for a registered brand term `T` occurring case-insensitively
in the original text, the post-processed value contains the exact original
casing of `T` *provided* the glossary-substituted capability output still
contains `T` case-insensitively; when the output lost every case-insensitive
occurrence of `T`, nothing is restored (see the counterexample). -/
theorem apply_translation_rules_preserves_present_brand :
    ∀ (cap : Str → Option Str) (text target_language : Str) (glossary : Glossary)
      (T exact : Str),
      T ≠ [] →
      ciFirstOcc T text = some exact →
      ciContains T (apply_glossary glossary target_language
          (translate_with_gemini cap text target_language)) = true →
      containsSub exact (apply_translation_rules cap text target_language glossary [T]) = true := by
  intro cap text target_language glossary T exact hT hocc hcontains
  obtain ⟨n0, ns, rfl⟩ : ∃ n0 ns, T = n0 :: ns := by
    cases T with
    | nil => exact absurd rfl hT
    | cons a b => exact ⟨a, b, rfl⟩
  unfold apply_translation_rules preserve_brand_terms
  simp only [List.foldl_cons, List.foldl_nil]
  rw [ciFirstOcc_some_ciContains (n0 :: ns) hT text exact hocc, hocc]
  simp only [if_true]
  exact ciReplaceAll_contains n0 ns exact _ hcontains

/-- Witness for C1 (amended) at a concrete input: the capability garbles the
casing to "OCTOPI"; the result contains "Octopi" in the original casing. -/
theorem apply_translation_rules_preserves_present_brand_witness :
    containsSub ( "Octopi".data)
      (apply_translation_rules (fun _ => some ( "El OCTOPI manda".data)) ( "Octopi rules".data)
        ( "Spanish".data) [] [( "Octopi".data)]) = true :=
  apply_translation_rules_preserves_present_brand
    (fun _ => some ( "El OCTOPI manda".data)) ( "Octopi rules".data) ( "Spanish".data) []
    ( "Octopi".data) ( "Octopi".data) (by decide) (by decide) (by decide)

/-
Component: Review Stage — `review_translation_item`
(fullstack_app/backend/translation_agency/agent.py) and
`validate_translation_length` (translation_agency_v2/char_limit_validator.py)
-/

/-- Finding kinds produced by `review_translation_item`.  The source returns
message strings; they are abstracted to the branch that fired plus its data
(the message text never feeds back into control flow). -/
inductive ReviewIssue where
  | length_exceeded (translated_length max_chars : Nat)
  | brand_term_lost (brand : Str)
  | empty_output
  | quality_issue (detail : Str)
deriving DecidableEq

/-- The brand-term list hardcoded inside `review_translation_item`. -/
def review_brand_terms : List Str :=
  [( "Octopi".data), ( "PokerGO".data), ( "WSOP".data), ( "ICM".data), ( "GTO".data)]

/-- `review_translation_item(item, batch_type, target_language)`: in source
order — character limit, hardcoded brand terms (case-sensitive substring
test), emptiness, then the LLM quality review.  `quality` is the opaque
capability (`none` models the call raising, which the source catches and
turns into "no finding"). -/
def review_translation_item (quality : Str → Str → Option Str)
    (original translated : Str) (max_chars : Nat) : Option ReviewIssue :=
  if translated.length > max_chars then
    some (.length_exceeded translated.length max_chars)
  else
    match review_brand_terms.find? (fun b => containsSub b original && ! containsSub b translated) with
    | some b => some (.brand_term_lost b)
    | none =>
      if (pyStrip translated).length = 0 then some .empty_output
      else
        match quality original translated with
        | some r => if pyStrip r = ( "OK".data) then none else some (.quality_issue (pyStrip r))
        | none => none

/-- Items of `translation_agency_v2/batch_processor.TranslationItem` as used by
the length validator (fields beyond `type` and `content` do not matter there). -/
structure V2Item where
  typ : Str
  content : Str
deriving DecidableEq

/-- Modelled from the spec: `TranslationItem.get_character_limit` is invoked by
`validate_translation_length` but defined nowhere under src/.  The validator's
own regeneration feedback documents the intended limits: "Headers/Buttons:
Original length + 5 characters maximum; Content: Original length + 20
characters maximum". -/
def get_character_limit (it : V2Item) : Nat :=
  if it.typ = ( "header".data) ∨ it.typ = ( "button".data) then it.content.length + 5
  else it.content.length + 20

/-- Per-item violations recorded by `validate_translation_length`
(1-based indices as in the source). -/
inductive V2Violation where
  | missing_value (item_index : Nat) (item_type : Str)
  | length_exceeded (item_index : Nat) (item_type : Str) (translated_length character_limit : Nat)
deriving DecidableEq

/-- Results of `validate_translation_length`, abstracting its result dicts. -/
inductive V2Result where
  | missing_items
  | item_count_mismatch (expected got : Nat)
  | invalid (violations : List V2Violation)
  | valid
deriving DecidableEq

/-- `validate_translation_length(translation_json, batch)`: `none` for
`translated_items` models a payload without an `items` key; each translated
item is its optional `value` field.  The item-count mismatch short-circuits
the whole batch before any per-item check. -/
def validate_translation_length (translated_items : Option (List (Option Str)))
    (original_items : List V2Item) : V2Result :=
  match translated_items with
  | none => .missing_items
  | some titems =>
    if titems.length ≠ original_items.length then
      .item_count_mismatch original_items.length titems.length
    else
      let violations := (titems.zip original_items).enum.filterMap (fun p =>
        match p.2.1 with
        | none => some (.missing_value (p.1 + 1) p.2.2.typ)
        | some tv =>
          if tv.length > get_character_limit p.2.2 then
            some (.length_exceeded (p.1 + 1) p.2.2.typ tv.length (get_character_limit p.2.2))
          else none)
      if violations ≠ [] then .invalid violations else .valid

/-- C2 (counterexample): an item whose translation is pure whitespace (empty
output after stripping) while a brand term of the original is missing from
it.  The claim's order (empty output before brand loss) predicts
`empty_output`; the code reports `brand_term_lost` because its actual order
is length, brand, emptiness, quality. -/
theorem review_order_counterexample :
    review_translation_item (fun _ _ => none) ( "Octopi".data) ( "   ".data) 12
        = some (.brand_term_lost ( "Octopi".data)) ∧
    (pyStrip ( "   ".data)).length = 0 ∧
    ( "   ".data).length ≤ 12 := by
  refine ⟨by decide, by decide, by decide⟩

/-- C2 (amended): `review_translation_item` checks in the fixed order
(1) length exceeded, (2) brand term lost, (3) empty output, (4) quality; the
first failing check wins, so at most one finding per item per pass; and the
item-count mismatch check lives in the v2 validator
`validate_translation_length`, where it short-circuits the whole batch. -/
theorem review_order :
    ∀ (quality : Str → Str → Option Str) (original translated : Str) (max_chars : Nat),
      (translated.length > max_chars →
        review_translation_item quality original translated max_chars
          = some (.length_exceeded translated.length max_chars)) ∧
      (translated.length ≤ max_chars →
        ∀ b, review_brand_terms.find?
            (fun b => containsSub b original && ! containsSub b translated) = some b →
          review_translation_item quality original translated max_chars
            = some (.brand_term_lost b)) ∧
      (translated.length ≤ max_chars →
        review_brand_terms.find?
            (fun b => containsSub b original && ! containsSub b translated) = none →
        (pyStrip translated).length = 0 →
        review_translation_item quality original translated max_chars = some .empty_output) ∧
      (translated.length ≤ max_chars →
        review_brand_terms.find?
            (fun b => containsSub b original && ! containsSub b translated) = none →
        (pyStrip translated).length ≠ 0 →
        review_translation_item quality original translated max_chars
          = match quality original translated with
            | some r => if pyStrip r = ( "OK".data) then none else some (.quality_issue (pyStrip r))
            | none => none) ∧
      (∀ (titems : List (Option Str)) (oitems : List V2Item),
        titems.length ≠ oitems.length →
        validate_translation_length (some titems) oitems
          = .item_count_mismatch oitems.length titems.length) := by
  intro quality original translated max_chars
  refine ⟨?_, ?_, ?_, ?_, ?_⟩
  · intro h
    unfold review_translation_item
    rw [if_pos h]
  · intro h b hb
    unfold review_translation_item
    rw [if_neg (by omega), hb]
  · intro h hb he
    unfold review_translation_item
    rw [if_neg (by omega), hb, if_pos he]
  · intro h hb he
    unfold review_translation_item
    rw [if_neg (by omega), hb, if_neg he]
  · intro titems oitems hne
    simp only [validate_translation_length]
    rw [if_pos hne]

/-- Witness for C2 (amended), applying the first and last clauses at concrete
inputs: an over-long translation, and a batch with a count mismatch. -/
theorem review_order_witness :
    review_translation_item (fun _ _ => none) ( "Hi".data) ( "Hola mundo grande".data) 5
        = some (.length_exceeded (( "Hola mundo grande".data).length) 5) ∧
    validate_translation_length (some [some ( "Hola".data)]) []
        = .item_count_mismatch 0 1 :=
  ⟨(review_order (fun _ _ => none) ( "Hi".data) ( "Hola mundo grande".data) 5).1 (by decide),
   (review_order (fun _ _ => none) ( "Hi".data) ( "Hola mundo grande".data) 5).2.2.2.2
     [some ( "Hola".data)] [] (by decide)⟩

/-
Component: Content Model & Segmenter — document type and traversals
(fullstack_app/backend/translation_agency/agent.py,
translation_agency_v2/batch_processor.py)
-/

mutual
/-- A content document: nested Python mappings/lists with string leaves
(the JSON shapes the pipeline ingests). -/
inductive JVal where
  | s (v : Str)
  | obj (fields : JFields)
  | arr (elems : JList)
/-- Mapping fields in insertion order with distinct keys (a Python dict). -/
inductive JFields where
  | nil
  | cons (key : Str) (val : JVal) (rest : JFields)
/-- List elements. -/
inductive JList where
  | nil
  | cons (head : JVal) (rest : JList)
end

def kType : Str := "type".data

def kValue : Str := "value".data

def kMeta : Str := "meta_data".data

def kPages : Str := "pages".data

def kName : Str := "name".data

/-- Python `key in d` on a dict. -/
def hasKeyJ (k : Str) : JFields → Bool
  | .nil => false
  | .cons key _ rest => key == k || hasKeyJ k rest

/-- Python `d[key]` / `d.get(key)` on a dict (keys are distinct, so the first
match is the binding). -/
def getKeyJ (k : Str) : JFields → Option JVal
  | .nil => none
  | .cons key v rest => if key == k then some v else getKeyJ k rest

/-- One-level view of mapping fields as an association list. -/
def fieldsToList : JFields → List (Str × JVal)
  | .nil => []
  | .cons k v rest => (k, v) :: fieldsToList rest

/-- Number of mapping fields. -/
def jFieldsLen : JFields → Nat
  | .nil => 0
  | .cons _ _ rest => jFieldsLen rest + 1

/-- Number of list elements. -/
def jListLen : JList → Nat
  | .nil => 0
  | .cons _ rest => jListLen rest + 1

/-- Python `len()` of a document node (characters / keys / elements). -/
def jLen : JVal → Nat
  | .s v => v.length
  | .obj fs => jFieldsLen fs
  | .arr xs => jListLen xs

def quoteChar : Char := Char.ofNat 39

def lbraceChar : Char := Char.ofNat 123

def rbraceChar : Char := Char.ofNat 125

mutual
/-- Python `str()` of a document node: strings unchanged at top level,
containers rendered via repr (single-quoted strings, comma-space separators). -/
def jStr : JVal → Str
  | .s v => v
  | .obj fs => lbraceChar :: (jReprFields fs ++ [rbraceChar])
  | .arr xs => '[' :: (jReprElems xs ++ [']'])
/-- Python `repr()` of a nested document node. -/
def jRepr : JVal → Str
  | .s v => quoteChar :: (v ++ [quoteChar])
  | .obj fs => lbraceChar :: (jReprFields fs ++ [rbraceChar])
  | .arr xs => '[' :: (jReprElems xs ++ [']'])
/-- Comma-separated `'key': repr(value)` renderings of dict fields. -/
def jReprFields : JFields → Str
  | .nil => []
  | .cons k v .nil => (quoteChar :: (k ++ [quoteChar])) ++ ( ": ".data) ++ jRepr v
  | .cons k v rest =>
    (quoteChar :: (k ++ [quoteChar])) ++ ( ": ".data) ++ jRepr v ++ ( ", ".data) ++ jReprFields rest
/-- Comma-separated repr renderings of list elements. -/
def jReprElems : JList → Str
  | .nil => []
  | .cons x .nil => jRepr x
  | .cons x rest => jRepr x ++ ( ", ".data) ++ jReprElems rest
end

mutual
/-- `count_translatable_items`: a mapping with both `type` and `value` counts
as one leaf; any other mapping and every list is traversed; scalars count 0. -/
def countTI : JVal → Nat
  | .s _ => 0
  | .obj fs =>
    if hasKeyJ kType fs && hasKeyJ kValue fs then 1 else countTIfs fs
  | .arr xs => countTIls xs
/-- Traversal of mapping values for `count_translatable_items`. -/
def countTIfs : JFields → Nat
  | .nil => 0
  | .cons _ v rest => countTI v + countTIfs rest
/-- Traversal of list elements for `count_translatable_items`. -/
def countTIls : JList → Nat
  | .nil => 0
  | .cons x rest => countTI x + countTIls rest
end

/-- `count_translatable_items` under its source name. -/
def count_translatable_items (d : JVal) : Nat := countTI d

/-- `classify_content_type(content_obj, path)`: keyword matching on the
lowercased path.  (The source also lowercases the item value but never uses
it in any check.) -/
def classify_content_type (path : Str) : Str :=
  let pl := lowerStr path
  if [( "nav".data), ( "menu".data), ( "link".data), ( "breadcrumb".data)].any
      (fun k => containsSub k pl) then ( "navigation".data)
  else if [( "button".data), ( "btn".data), ( "cta".data), ( "action".data)].any
      (fun k => containsSub k pl) then ( "buttons".data)
  else if [( "header".data), ( "title".data), ( "heading".data), ( "h1".data), ( "h2".data),
      ( "h3".data)].any (fun k => containsSub k pl) then ( "headers".data)
  else if [( "form".data), ( "label".data), ( "input".data), ( "field".data)].any
      (fun k => containsSub k pl) then ( "form_labels".data)
  else if [( "meta".data), ( "description".data), ( "keywords".data), ( "seo".data)].any
      (fun k => containsSub k pl) then ( "meta_content".data)
  else ( "body_text".data)

/-- A batch item of `organize_content_into_batches` (the `type` field is
stored raw, as in the source). -/
structure OrgItem where
  path : Str
  original : Str
  typ : JVal
  content_category : Str
  original_length : Nat
  max_chars : Nat
  translated : Option Str
  status : Str

mutual
/-- `classify_and_batch(obj, path)` of `organize_content_into_batches`,
flattened to the traversal-ordered item list: a mapping with both `type` and
`value` becomes one item; any other mapping and every list is recursed into. -/
def classifyAndBatch (lang path : Str) : JVal → List OrgItem
  | .s _ => []
  | .obj fs =>
    if hasKeyJ kType fs && hasKeyJ kValue fs then
      let original := jStr ((getKeyJ kValue fs).getD (.s []))
      [{ path := path
         original := original
         typ := (getKeyJ kType fs).getD (.s [])
         content_category := classify_content_type path
         original_length := original.length
         max_chars := calculate_max_chars original.length lang
         translated := none
         status := ( "pending".data) }]
    else classifyAndBatchF lang path fs
  | .arr xs => classifyAndBatchL lang path 0 xs
/-- Mapping-field traversal: the child path is `path.key` (or `key` at the root). -/
def classifyAndBatchF (lang path : Str) : JFields → List OrgItem
  | .nil => []
  | .cons k v rest =>
    classifyAndBatch lang (if path.isEmpty then k else path ++ ( ".".data) ++ k) v
      ++ classifyAndBatchF lang path rest
/-- List traversal: the child path is `path[i]`. -/
def classifyAndBatchL (lang path : Str) (i : Nat) : JList → List OrgItem
  | .nil => []
  | .cons x rest =>
    classifyAndBatch lang (path ++ ( "[".data) ++ natToStr i ++ ( "]".data)) x
      ++ classifyAndBatchL lang path (i + 1) rest
end

/-- The six content-type buckets of `organize_content_into_batches`, in the
source's dict order. -/
def batch_categories : List Str :=
  [( "navigation".data), ( "buttons".data), ( "headers".data), ( "body_text".data),
   ( "form_labels".data), ( "meta_content".data)]

/-- `organize_content_into_batches`: classify every leaf, group by content
type in bucket order (items keep traversal order), drop empty buckets. -/
def organize_content_into_batches (lang : Str) (content : JVal) : List (Str × List OrgItem) :=
  let items := classifyAndBatch lang [] content
  (batch_categories.map (fun c => (c, items.filter (fun it => it.content_category == c)))).filter
    (fun p => ! p.2.isEmpty)

/-- `translation_agency_v2.batch_processor.TranslationItem` (`type`, `content`
and `group_name` hold the raw document values, as the source stores them). -/
structure TransItem where
  id : Str
  typ : JVal
  content : JVal
  context : Str
  group_id : Str
  group_name : JVal
  original_length : Nat

/-- `translation_agency_v2.batch_processor.TranslationBatch`. -/
structure TranslationBatch where
  batch_id : Str
  group_id : Str
  group_name : JVal
  group_description : JVal
  items : List TransItem
  total_items : Nat

/-- One field of the `_create_batches_by_group` item scan: the `meta_data`
field is skipped, a field whose value is a mapping with both `type` and
`value` becomes an item, and anything else is skipped (not recursed into;
a non-mapping value yields nothing whether or not the key is `meta_data`,
exactly as in the source's two guards). -/
def groupItemOf (group_key : Str) (gn : JVal) (item_key : Str) : JVal → List TransItem
  | .obj ifs =>
    if item_key == kMeta then []
    else if hasKeyJ kType ifs && hasKeyJ kValue ifs then
      [{ id := group_key ++ ( "_".data) ++ item_key
         typ := (getKeyJ kType ifs).getD (.s [])
         content := (getKeyJ kValue ifs).getD (.s [])
         context := jStr gn ++ ( " - ".data) ++ item_key
         group_id := group_key
         group_name := gn
         original_length := jLen ((getKeyJ kValue ifs).getD (.s [])) }]
    else []
  | .s _ => []
  | .arr _ => []

/-- The item scan of `_create_batches_by_group` inside one group, in field
order. -/
def groupItems (group_key : Str) (gn : JVal) : JFields → List TransItem
  | .nil => []
  | .cons item_key item_data rest =>
    groupItemOf group_key gn item_key item_data ++ groupItems group_key gn rest

/-- The per-group step of `_create_batches_by_group`: skip the `name` field,
skip non-dict groups and groups without `meta_data`, and only build a batch
when the group yielded at least one item. -/
def processGroup (group_key : Str) (group_data : JVal) : Option TranslationBatch :=
  if group_key == kName then none
  else match group_data with
    | .obj gfs =>
      if hasKeyJ kMeta gfs then
        if (groupItems group_key ((getKeyJ kMeta gfs).getD (.s [])) gfs).isEmpty then none
        else some
          { batch_id := ( "batch_".data) ++ group_key
            group_id := group_key
            group_name := (getKeyJ kMeta gfs).getD (.s [])
            group_description := (getKeyJ kMeta gfs).getD (.s [])
            items := groupItems group_key ((getKeyJ kMeta gfs).getD (.s [])) gfs
            total_items := (groupItems group_key ((getKeyJ kMeta gfs).getD (.s [])) gfs).length }
      else none
    | _ => none

/-- Iteration over `pages.items()`. -/
def processGroups : JFields → List TranslationBatch
  | .nil => []
  | .cons k v rest =>
    (match processGroup k v with
     | some b => [b]
     | none => []) ++ processGroups rest

/-- `_create_batches_by_group`: `none` models the AttributeError Python raises
when the document (or its `pages` entry) is not a mapping. -/
def create_batches_by_group (content : JVal) : Option (List TranslationBatch) :=
  match content with
  | .obj fs =>
    match (getKeyJ kPages fs).getD (.obj .nil) with
    | .obj gs => some (processGroups gs)
    | _ => none
  | _ => none

/-- A document whose only group holds a single partial mapping (a `value` key
but no `type`) wrapping a genuine two-key leaf one level deeper. -/
def docPartial : JVal :=
  .obj (.cons kPages
    (.obj (.cons ( "group_1".data)
      (.obj (.cons kMeta (.s ( "Landing".data))
        (.cons ( "x".data)
          (.obj (.cons kValue
            (.obj (.cons kType (.s ( "header".data))
              (.cons kValue (.s ( "Hi".data)) .nil)))
            .nil))
          .nil)))
      .nil))
    .nil)

/-- C8 (counterexample): the recursive fullstack traversal finds exactly one
translatable leaf inside `docPartial`'s partial node, but the v2 segmenter
skips the partial node without recursing into it, producing no batch at all —
so a partial mapping is not always "recursed into as a branch node". -/
theorem v2_partial_node_not_recursed :
    count_translatable_items docPartial = 1 ∧
    create_batches_by_group docPartial = some [] := by
  refine ⟨by decide, rfl⟩

/-- Every item produced by the v2 group scan stems from a field whose value is
a mapping carrying both `type` and `value`. -/
theorem groupItems_only_leaves (gk : Str) (gn : JVal) :
    ∀ (gfs : JFields) (it : TransItem), it ∈ groupItems gk gn gfs →
      ∃ (k : Str) (ifs : JFields), (k, JVal.obj ifs) ∈ fieldsToList gfs ∧
        (hasKeyJ kType ifs && hasKeyJ kValue ifs) = true
  | .nil, it, hmem => by simp [groupItems] at hmem
  | .cons k v rest, it, hmem => by
    simp only [groupItems, List.mem_append] at hmem
    rcases hmem with hmem | hmem
    · cases v with
      | s w => simp [groupItemOf] at hmem
      | arr xs => simp [groupItemOf] at hmem
      | obj ifs =>
        simp only [groupItemOf] at hmem
        by_cases hk : (k == kMeta) = true
        · rw [if_pos hk] at hmem
          simp at hmem
        · rw [if_neg hk] at hmem
          by_cases hb : (hasKeyJ kType ifs && hasKeyJ kValue ifs) = true
          · exact ⟨k, ifs, by simp [fieldsToList], hb⟩
          · rw [if_neg (by simp [hb])] at hmem
            simp at hmem
    · obtain ⟨k2, ifs2, hin, hb⟩ := groupItems_only_leaves gk gn rest it hmem
      exact ⟨k2, ifs2, by simp [fieldsToList, hin], hb⟩

/-- C8 (amended): in the recursive traversals (`count_translatable_items` and
`organize_content_into_batches`) a mapping with `type` xor `value` is recursed
into as a branch while a mapping with both keys becomes exactly one item and
is not recursed; in the v2 segmenter a partial mapping at item level is
skipped entirely (not recursed), and in all three only mappings containing
both keys ever become translation items. -/
theorem traversal_leaf_rule :
    (∀ (fs : JFields) (lang path : Str),
      (hasKeyJ kType fs && hasKeyJ kValue fs) = false →
        countTI (.obj fs) = countTIfs fs ∧
        classifyAndBatch lang path (.obj fs) = classifyAndBatchF lang path fs) ∧
    (∀ (fs : JFields) (lang path : Str),
      (hasKeyJ kType fs && hasKeyJ kValue fs) = true →
        countTI (.obj fs) = 1 ∧
        (classifyAndBatch lang path (.obj fs)).map (fun it => it.path) = [path]) ∧
    (∀ (gk : Str) (gn : JVal) (gfs : JFields) (it : TransItem),
      it ∈ groupItems gk gn gfs →
      ∃ (k : Str) (ifs : JFields),
        (k, JVal.obj ifs) ∈ fieldsToList gfs ∧
        (hasKeyJ kType ifs && hasKeyJ kValue ifs) = true) := by
  refine ⟨?_, ?_, ?_⟩
  · intro fs lang path h
    constructor
    · simp only [countTI]
      rw [h]
      simp
    · simp only [classifyAndBatch]
      rw [h]
      simp
  · intro fs lang path h
    constructor
    · simp only [countTI]
      rw [h]
      simp
    · simp only [classifyAndBatch]
      rw [h]
      simp
  · exact fun gk gn gfs it hmem => groupItems_only_leaves gk gn gfs it hmem

/-- Witness for C8 (amended) at concrete inputs: a partial mapping is recursed
into by the fullstack traversal, and a two-key mapping is a single item. -/
theorem traversal_leaf_rule_witness :
    countTI (.obj (.cons kValue (.s ( "Hi".data)) .nil))
        = countTIfs (.cons kValue (.s ( "Hi".data)) .nil) ∧
    countTI (.obj (.cons kType (.s ( "h".data)) (.cons kValue (.s ( "Hi".data)) .nil))) = 1 :=
  ⟨(traversal_leaf_rule.1 (.cons kValue (.s ( "Hi".data)) .nil) [] [] (by decide)).1,
   (traversal_leaf_rule.2.1 (.cons kType (.s ( "h".data)) (.cons kValue (.s ( "Hi".data)) .nil))
     [] [] (by decide)).1⟩

/-- A batch built by `processGroup` carries at least one item and a consistent
`total_items` count. -/
theorem processGroup_nonempty (gk : Str) (gd : JVal) (b : TranslationBatch)
    (h : processGroup gk gd = some b) : b.items ≠ [] ∧ b.total_items = b.items.length := by
  unfold processGroup at h
  split at h
  · exact absurd h (by simp)
  · split at h
    · next gfs =>
      split at h
      · split at h
        · exact absurd h (by simp)
        · next hne =>
          injection h with h2
          subst h2
          rw [List.isEmpty_iff] at hne
          exact ⟨hne, rfl⟩
      · exact absurd h (by simp)
    · exact absurd h (by simp)

/-- Every batch in the `pages` iteration is non-empty. -/
theorem processGroups_nonempty :
    ∀ (gs : JFields) (b : TranslationBatch), b ∈ processGroups gs → b.items ≠ []
  | .nil, b, hb => by simp [processGroups] at hb
  | .cons k v rest, b, hb => by
    simp only [processGroups, List.mem_append] at hb
    rcases hb with hb | hb
    · cases hpg : processGroup k v with
      | none =>
        rw [hpg] at hb
        simp at hb
      | some b2 =>
        rw [hpg] at hb
        simp at hb
        subst hb
        exact (processGroup_nonempty k v _ hpg).1
    · exact processGroups_nonempty rest b hb

/-- C9: segmentation is a pure function of the document — rerunning
`_create_batches_by_group` on the same document yields identical batches
(ids, order, membership) — and a group with no translatable leaf produces no
batch: every produced batch carries at least one item, and its `total_items`
matches. -/
theorem create_batches_deterministic :
    ∀ (d : JVal),
      create_batches_by_group d = create_batches_by_group d ∧
      (∀ (gk : Str) (gd : JVal) (b : TranslationBatch),
        processGroup gk gd = some b → b.items ≠ [] ∧ b.total_items = b.items.length) ∧
      (∀ (bs : List TranslationBatch), create_batches_by_group d = some bs →
        ∀ b ∈ bs, b.items ≠ []) := by
  intro d
  refine ⟨rfl, processGroup_nonempty, ?_⟩
  intro bs hbs b hb
  cases d with
  | s v => simp [create_batches_by_group] at hbs
  | arr xs => simp [create_batches_by_group] at hbs
  | obj fs =>
    cases hp : (getKeyJ kPages fs).getD (.obj .nil) with
    | obj gs =>
      simp only [create_batches_by_group, hp, Option.some.injEq] at hbs
      subst hbs
      exact processGroups_nonempty gs b hb
    | s w => simp [create_batches_by_group, hp] at hbs
    | arr ys => simp [create_batches_by_group, hp] at hbs

/-- A document with one group holding one genuine leaf, for the C9 witness. -/
def docOneLeaf : JVal :=
  .obj (.cons kPages
    (.obj (.cons ( "group_1".data)
      (.obj (.cons kMeta (.s ( "Landing".data))
        (.cons ( "hero".data)
          (.obj (.cons kType (.s ( "header".data))
            (.cons kValue (.s ( "Welcome".data)) .nil)))
          .nil)))
      .nil))
    .nil)

/-- The single item segmentation finds in `docOneLeaf`. -/
def oneLeafItem : TransItem :=
  { id := ( "group_1_hero".data)
    typ := .s ( "header".data)
    content := .s ( "Welcome".data)
    context := ( "Landing - hero".data)
    group_id := ( "group_1".data)
    group_name := .s ( "Landing".data)
    original_length := 7 }

/-- The single batch segmentation builds from `docOneLeaf`. -/
def oneLeafBatch : TranslationBatch :=
  { batch_id := ( "batch_group_1".data)
    group_id := ( "group_1".data)
    group_name := .s ( "Landing".data)
    group_description := .s ( "Landing".data)
    items := [oneLeafItem]
    total_items := 1 }

/-- Witness for C9: on the concrete document the produced batch is exactly
`oneLeafBatch` and it is non-empty. -/
theorem create_batches_deterministic_witness : oneLeafBatch.items ≠ [] :=
  (create_batches_deterministic docOneLeaf).2.2 [oneLeafBatch] rfl oneLeafBatch
    (List.mem_singleton.mpr rfl)

/-
Component: Reassembler — `apply_batch_translations_to_content`
(fullstack_app/backend/translation_agency/agent.py)
-/

/-- The Python exceptions path navigation can raise.  The source's `except`
clause catches exactly `KeyError`, `IndexError` and `ValueError`. -/
inductive PyErr where
  | keyError
  | indexError
  | valueError
  | typeError
deriving DecidableEq

/-- Digit-run parser used by `pyInt` (value of a non-empty all-digit string). -/
def parseDigits (s : Str) : Option Nat :=
  match s with
  | [] => none
  | _ => if s.all (fun c => c.isDigit)
         then some (s.foldl (fun acc c => acc * 10 + (c.toNat - 48)) 0)
         else none

/-- Python `int(s)`: surrounding whitespace allowed, optional sign, then a
non-empty digit run; anything else raises `ValueError`. -/
def pyInt (s : Str) : Except PyErr Int :=
  match pyStrip s with
  | '-' :: rest =>
    match parseDigits rest with
    | some n => .ok (-(n : Int))
    | none => .error .valueError
  | '+' :: rest =>
    match parseDigits rest with
    | some n => .ok (n : Int)
    | none => .error .valueError
  | t =>
    match parseDigits t with
    | some n => .ok (n : Int)
    | none => .error .valueError

/-- `key, index = part.split('['); index = int(index.rstrip(']'))`: unpacking
raises `ValueError` unless the split has exactly two parts. -/
def parseBracketPart (part : Str) : Except PyErr (Str × Int) :=
  match List.splitOn '[' part with
  | [key, idxStr] =>
    match pyInt (rstripChar ']' idxStr) with
    | .ok i => .ok (key, i)
    | .error e => .error e
  | _ => .error .valueError

/-- In-place dict update at an existing key (value replaced, position kept);
only used after a successful lookup. -/
def setFirstJ (k : Str) (v : JVal) : JFields → JFields
  | .nil => .nil
  | .cons key w rest =>
    if key == k then .cons key v rest else .cons key w (setFirstJ k v rest)

/-- Python dict `__setitem__`: update the existing binding in place, or append
a new one at the end. -/
def setItemJ (k : Str) (v : JVal) : JFields → JFields
  | .nil => .cons k v .nil
  | .cons key w rest =>
    if key == k then .cons key v rest else .cons key w (setItemJ k v rest)

/-- Python sequence index normalisation: non-negative in range, or negative
counted from the end; out of range is `none` (IndexError at the call sites). -/
def normIdx (i : Int) (len : Nat) : Option Nat :=
  if 0 ≤ i ∧ i < (len : Int) then some i.toNat
  else if -(len : Int) ≤ i ∧ i < 0 then some ((len : Int) + i).toNat
  else none

/-- Element of a document list (callers guard the index via `normIdx`, so the
nil default is unreachable). -/
def jlGet : Nat → JList → JVal
  | _, .nil => .s []
  | 0, .cons x _ => x
  | n + 1, .cons _ rest => jlGet n rest

/-- In-place update of a document list element. -/
def jlSet : Nat → JVal → JList → JList
  | _, _, .nil => .nil
  | 0, v, .cons _ rest => .cons v rest
  | n + 1, v, .cons x rest => .cons x (jlSet n v rest)

/-- The final `node["value"] = translated` assignment: a mapping gets its
`value` binding replaced (or added); assigning into a list or a string raises
`TypeError`. -/
def setValueField (d : JVal) (t : Str) : Except PyErr JVal :=
  match d with
  | .obj fs => .ok (.obj (setItemJ kValue (.s t) fs))
  | .s _ => .error .typeError
  | .arr _ => .error .typeError

/-- Resolution of the last path part and the `value` assignment, with Python's
error behaviour: a bracketed part is parsed first (ValueError), then
`d[key]` (KeyError on a dict miss, TypeError on a list or string), then
`[index]` (IndexError out of range; an int index into a dict is a KeyError;
an in-range index into a string yields an immutable character, so the
assignment raises TypeError). -/
def setFinal (t : Str) (d : JVal) (part : Str) : Except PyErr JVal :=
  if part.contains '[' && part.contains ']' then
    match parseBracketPart part with
    | .error e => .error e
    | .ok (key, i) =>
      match d with
      | .obj fs =>
        match getKeyJ key fs with
        | none => .error .keyError
        | some a =>
          match a with
          | .arr xs =>
            match normIdx i (jListLen xs) with
            | none => .error .indexError
            | some n =>
              match setValueField (jlGet n xs) t with
              | .error e => .error e
              | .ok b2 => .ok (.obj (setFirstJ key (.arr (jlSet n b2 xs)) fs))
          | .obj _ => .error .keyError
          | .s w =>
            match normIdx i w.length with
            | none => .error .indexError
            | some _ => .error .typeError
      | .arr _ => .error .typeError
      | .s _ => .error .typeError
  else
    match d with
    | .obj fs =>
      match getKeyJ part fs with
      | none => .error .keyError
      | some v =>
        match setValueField v t with
        | .error e => .error e
        | .ok v2 => .ok (.obj (setFirstJ part v2 fs))
    | .arr _ => .error .typeError
    | .s _ => .error .typeError

/-- Navigation along `path_parts` with in-place update, mirroring the
source's loop plus final assignment.  Descending into a string yields an
immutable one-character copy, so nothing is written back on that branch (its
`ok` case is in fact unreachable: the final assignment on a string always
raises). -/
def applyParts (t : Str) : List Str → JVal → Except PyErr JVal
  | [], _ => .error .indexError
  | [part], d => setFinal t d part
  | part :: p2 :: rest, d =>
    if part.contains '[' && part.contains ']' then
      match parseBracketPart part with
      | .error e => .error e
      | .ok (key, i) =>
        match d with
        | .obj fs =>
          match getKeyJ key fs with
          | none => .error .keyError
          | some a =>
            match a with
            | .arr xs =>
              match normIdx i (jListLen xs) with
              | none => .error .indexError
              | some n =>
                match applyParts t (p2 :: rest) (jlGet n xs) with
                | .error e => .error e
                | .ok e2 => .ok (.obj (setFirstJ key (.arr (jlSet n e2 xs)) fs))
            | .obj _ => .error .keyError
            | .s w =>
              match normIdx i w.length with
              | none => .error .indexError
              | some n =>
                match applyParts t (p2 :: rest) (.s [w.getD n ' ']) with
                | .error e => .error e
                | .ok _ => .ok d
        | .arr _ => .error .typeError
        | .s _ => .error .typeError
    else
      match d with
      | .obj fs =>
        match getKeyJ part fs with
        | none => .error .keyError
        | some v =>
          match applyParts t (p2 :: rest) v with
          | .error e => .error e
          | .ok v2 => .ok (.obj (setFirstJ part v2 fs))
      | .arr _ => .error .typeError
      | .s _ => .error .typeError

/-- Truthiness of `item["translated"]` (None and the empty string are falsy). -/
def translatedTruthy : Option Str → Bool
  | none => false
  | some t => ! t.isEmpty

/-- One loop body of `apply_batch_translations_to_content`: active items
(status approved/revised with a truthy translation) are applied; a
`KeyError`/`IndexError`/`ValueError` is caught, logged and skipped; any other
exception propagates. -/
def applyOneItem (d : JVal) (it : OrgItem) : Except PyErr JVal :=
  if (it.status = ( "approved".data) ∨ it.status = ( "revised".data))
      ∧ translatedTruthy it.translated then
    match applyParts (it.translated.getD []) (List.splitOn '.' it.path) d with
    | .ok d2 => .ok d2
    | .error .keyError => .ok d
    | .error .indexError => .ok d
    | .error .valueError => .ok d
    | .error .typeError => .error .typeError
  else .ok d

/-- The item loop of `apply_batch_translations_to_content`. -/
def applyItems : JVal → List OrgItem → Except PyErr JVal
  | d, [] => .ok d
  | d, it :: rest =>
    match applyOneItem d it with
    | .ok d2 => applyItems d2 rest
    | .error e => .error e

/-- `apply_batch_translations_to_content`: all batches' items in order. -/
def apply_batch_translations_to_content (content : JVal)
    (content_batches : List (Str × List OrgItem)) : Except PyErr JVal :=
  applyItems content (content_batches.map Prod.snd).flatten

/-- Specification-side relation for C4, following the spec's words: the result
differs from the input only by descending through existing keys and in-range
indices and finally assigning the `value` field of a mapping — every other
key, every list length, and all nesting are untouched (the assignment may add
a `value` key to a mapping that lacked one). -/
inductive ValueOnlyDiff : JVal → JVal → Prop where
  | refl (d : JVal) : ValueOnlyDiff d d
  | assignValue (fs : JFields) (t : Str) :
      ValueOnlyDiff (.obj fs) (.obj (setItemJ kValue (.s t) fs))
  | objStep (fs : JFields) (k : Str) (v v2 : JVal) :
      getKeyJ k fs = some v → ValueOnlyDiff v v2 →
      ValueOnlyDiff (.obj fs) (.obj (setFirstJ k v2 fs))
  | arrStep (xs : JList) (n : Nat) (x2 : JVal) :
      ValueOnlyDiff (jlGet n xs) x2 →
      ValueOnlyDiff (.arr xs) (.arr (jlSet n x2 xs))

/-- Keys of a mapping, in order. -/
def keysOf : JFields → List Str
  | .nil => []
  | .cons k _ rest => k :: keysOf rest

/-- In-place update keeps the key list unchanged. -/
theorem setFirstJ_keys (k : Str) (v : JVal) :
    ∀ fs, keysOf (setFirstJ k v fs) = keysOf fs
  | .nil => rfl
  | .cons key w rest => by
    by_cases h : (key == k) = true
    · simp [setFirstJ, h, keysOf]
    · simp [setFirstJ, h, keysOf, setFirstJ_keys k v rest]

/-- Dict assignment keeps the key list, or appends exactly the new key. -/
theorem setItemJ_keys (k : Str) (v : JVal) :
    ∀ fs, keysOf (setItemJ k v fs) = keysOf fs ∨
      keysOf (setItemJ k v fs) = keysOf fs ++ [k]
  | .nil => by simp [setItemJ, keysOf]
  | .cons key w rest => by
    by_cases h : (key == k) = true
    · simp [setItemJ, h, keysOf]
    · rcases setItemJ_keys k v rest with h2 | h2
      · simp [setItemJ, h, keysOf, h2]
      · simp [setItemJ, h, keysOf, h2]

/-- In-place list update keeps the length. -/
theorem jlSet_len (v : JVal) : ∀ (n : Nat) (xs : JList), jListLen (jlSet n v xs) = jListLen xs
  | _, .nil => by simp [jlSet]
  | 0, .cons _ rest => by simp [jlSet, jListLen]
  | n + 1, .cons x rest => by simp [jlSet, jListLen, jlSet_len v n rest]

/-- `setValueField` succeeds only on mappings, and then only rewrites the
`value` binding. -/
theorem setValueField_diff (v : JVal) (t : Str) (v2 : JVal)
    (h : setValueField v t = .ok v2) : ValueOnlyDiff v v2 := by
  cases v with
  | obj fs =>
    simp only [setValueField, Except.ok.injEq] at h
    subst h
    exact .assignValue fs t
  | s w => simp [setValueField] at h
  | arr xs => simp [setValueField] at h

/-- A successful final assignment only rewrites a `value` field reached
through an existing key (and possibly one list index). -/
theorem setFinal_diff (t : Str) (d : JVal) (part : Str) (d2 : JVal)
    (h : setFinal t d part = .ok d2) : ValueOnlyDiff d d2 := by
  unfold setFinal at h
  by_cases hbr : (part.contains '[' && part.contains ']') = true
  · rw [if_pos hbr] at h
    cases hp : parseBracketPart part with
    | error e => simp [hp] at h
    | ok ki =>
      obtain ⟨key, i⟩ := ki
      cases d with
      | s w => simp [hp] at h
      | arr xs => simp [hp] at h
      | obj fs =>
        simp only [hp] at h
        cases hg : getKeyJ key fs with
        | none => simp [hg] at h
        | some a =>
          simp only [hg] at h
          cases a with
          | obj gs => simp at h
          | s w =>
            cases hn : normIdx i w.length with
            | none => simp [hn] at h
            | some n => simp [hn] at h
          | arr xs =>
            cases hn : normIdx i (jListLen xs) with
            | none => simp [hn] at h
            | some n =>
              simp only [hn] at h
              cases hs : setValueField (jlGet n xs) t with
              | error e => simp [hs] at h
              | ok b2 =>
                simp only [hs, Except.ok.injEq] at h
                subst h
                exact .objStep fs key (.arr xs) _ hg
                  (.arrStep xs n b2 (setValueField_diff _ t b2 hs))
  · rw [if_neg hbr] at h
    cases d with
    | s w => simp at h
    | arr xs => simp at h
    | obj fs =>
      cases hg : getKeyJ part fs with
      | none => simp [hg] at h
      | some v =>
        simp only [hg] at h
        cases hs : setValueField v t with
        | error e => simp [hs] at h
        | ok v2 =>
          simp only [hs, Except.ok.injEq] at h
          subst h
          exact .objStep fs part v v2 hg (setValueField_diff v t v2 hs)

/-- A successful path application only rewrites a `value` field along the
recorded path. -/
theorem applyParts_diff (t : Str) :
    ∀ (parts : List Str) (d d2 : JVal), applyParts t parts d = .ok d2 → ValueOnlyDiff d d2
  | [], d, d2, h => by simp [applyParts] at h
  | [part], d, d2, h => setFinal_diff t d part d2 h
  | part :: p2 :: rest, d, d2, h => by
    simp only [applyParts] at h
    by_cases hbr : (part.contains '[' && part.contains ']') = true
    · rw [if_pos hbr] at h
      cases hp : parseBracketPart part with
      | error e => simp [hp] at h
      | ok ki =>
        obtain ⟨key, i⟩ := ki
        cases d with
        | s w => simp [hp] at h
        | arr xs => simp [hp] at h
        | obj fs =>
          simp only [hp] at h
          cases hg : getKeyJ key fs with
          | none => simp [hg] at h
          | some a =>
            simp only [hg] at h
            cases a with
            | obj gs => simp at h
            | s w =>
              cases hn : normIdx i w.length with
              | none => simp [hn] at h
              | some n =>
                simp only [hn] at h
                split at h
                · simp at h
                · simp only [Except.ok.injEq] at h
                  subst h
                  exact .refl _
            | arr xs =>
              cases hn : normIdx i (jListLen xs) with
              | none => simp [hn] at h
              | some n =>
                simp only [hn] at h
                cases hr : applyParts t (p2 :: rest) (jlGet n xs) with
                | error e => simp [hr] at h
                | ok e2 =>
                  simp only [hr, Except.ok.injEq] at h
                  subst h
                  exact .objStep fs key (.arr xs) _ hg
                    (.arrStep xs n e2 (applyParts_diff t (p2 :: rest) (jlGet n xs) e2 hr))
    · rw [if_neg hbr] at h
      cases d with
      | s w => simp at h
      | arr xs => simp at h
      | obj fs =>
        cases hg : getKeyJ part fs with
        | none => simp [hg] at h
        | some v =>
          simp only [hg] at h
          cases hr : applyParts t (p2 :: rest) v with
          | error e => simp [hr] at h
          | ok v2 =>
            simp only [hr, Except.ok.injEq] at h
            subst h
            exact .objStep fs part v v2 hg (applyParts_diff t (p2 :: rest) v v2 hr)

/-- A caught navigation failure (or an inactive item) leaves the document
untouched. -/
theorem applyOneItem_skip (d : JVal) (it : OrgItem) (e : PyErr)
    (hp : applyParts (it.translated.getD []) (List.splitOn '.' it.path) d = .error e)
    (hne : e ≠ .typeError) : applyOneItem d it = .ok d := by
  unfold applyOneItem
  split
  · rw [hp]
    cases e with
    | typeError => exact absurd rfl hne
    | keyError => rfl
    | indexError => rfl
    | valueError => rfl
  · rfl

/-- The only exception `applyOneItem` lets escape is `TypeError`. -/
theorem applyOneItem_error (d : JVal) (it : OrgItem) (e : PyErr)
    (h : applyOneItem d it = .error e) : e = .typeError := by
  unfold applyOneItem at h
  split at h
  · cases hp : applyParts (it.translated.getD []) (List.splitOn '.' it.path) d with
    | ok d2 => rw [hp] at h; simp at h
    | error e2 =>
      rw [hp] at h
      cases e2 with
      | typeError =>
        simp only [Except.error.injEq] at h
        exact h.symm
      | keyError => simp at h
      | indexError => simp at h
      | valueError => simp at h
  · simp at h

/-- The only exception the item loop lets escape is `TypeError`. -/
theorem applyItems_error :
    ∀ (items : List OrgItem) (d : JVal) (e : PyErr),
      applyItems d items = .error e → e = .typeError
  | [], d, e, h => by simp [applyItems] at h
  | it :: rest, d, e, h => by
    simp only [applyItems] at h
    cases hone : applyOneItem d it with
    | ok d2 =>
      rw [hone] at h
      exact applyItems_error rest d2 e h
    | error e2 =>
      rw [hone] at h
      simp only [Except.error.injEq] at h
      subst h
      exact applyOneItem_error d it e2 hone

/-- The document the C4 counterexample navigates into. -/
def ceDoc : JVal := .obj (.cons ( "a".data) (.s ( "hello".data)) .nil)

/-- An approved item whose recorded path descends into a string leaf. -/
def ceItem : OrgItem :=
  { path := ( "a.b".data)
    original := ( "hello".data)
    typ := .s ( "content".data)
    content_category := ( "body_text".data)
    original_length := 5
    max_chars := 10
    translated := some ( "X".data)
    status := ( "approved".data) }

/-- C4 (counterexample): applying a batch whose item path resolves into a
string leaf raises — Python's `"hello"["b"]` is a TypeError, which the
`except (KeyError, IndexError, ValueError)` clause does not catch, so
`apply_batch_translations_to_content` is not "never raises". -/
theorem apply_translations_raises :
    apply_batch_translations_to_content ceDoc [(( "body_text".data), [ceItem])]
      = .error .typeError := rfl

/-- C4 (amended): the reassembly loop never raises *except* through
`TypeError` (a path step that hits a scalar or indexes a list with a string);
an item whose path fails with any caught error — or an inactive item — is
skipped with the document unchanged, and every successful application only
rewrites (or adds) a `value` field reached through existing keys and in-range
indices, leaving all other keys, list lengths and nesting intact. -/
theorem apply_translations_fail_open :
    (∀ (content : JVal) (batches : List (Str × List OrgItem)) (e : PyErr),
      apply_batch_translations_to_content content batches = .error e → e = .typeError) ∧
    (∀ (d : JVal) (it : OrgItem) (e : PyErr),
      applyParts (it.translated.getD []) (List.splitOn '.' it.path) d = .error e →
      e ≠ .typeError → applyOneItem d it = .ok d) ∧
    (∀ (t : Str) (parts : List Str) (d d2 : JVal),
      applyParts t parts d = .ok d2 → ValueOnlyDiff d d2) :=
  ⟨fun content batches e h => applyItems_error _ content e h,
   applyOneItem_skip,
   fun t parts d d2 h => applyParts_diff t parts d d2 h⟩

/-- A document and item for the C4 skip witness: the path misses (KeyError). -/
def ceMissItem : OrgItem :=
  { path := ( "zz".data)
    original := ( "hello".data)
    typ := .s ( "content".data)
    content_category := ( "body_text".data)
    original_length := 5
    max_chars := 10
    translated := some ( "X".data)
    status := ( "approved".data) }

/-- Witness for C4 (amended) at concrete inputs: a missing key is skipped
fail-open, and a successful application is a `value`-only rewrite. -/
theorem apply_translations_fail_open_witness :
    applyOneItem ceDoc ceMissItem = .ok ceDoc ∧
    ValueOnlyDiff (.obj (.cons ( "a".data) (.obj .nil) .nil))
      (.obj (.cons ( "a".data) (.obj (.cons kValue (.s ( "X".data)) .nil)) .nil)) :=
  ⟨apply_translations_fail_open.2.1 ceDoc ceMissItem .keyError rfl (by decide),
   apply_translations_fail_open.2.2 ( "X".data) [( "a".data)]
     (.obj (.cons ( "a".data) (.obj .nil) .nil))
     (.obj (.cons ( "a".data) (.obj (.cons kValue (.s ( "X".data)) .nil)) .nil)) rfl⟩

/-
Component: result parsing of `/translate-sections`
(fullstack_app/backend/main.py)
-/

/-- Exceptions of the parsing/mapping path in `translate_sections`
(pydantic's rejection of a non-string `value` is `validationError`). -/
inductive MainErr where
  | typeError
  | keyError
  | indexError
  | validationError
deriving DecidableEq

/-- A Python/JSON value as held in the agent session state. -/
inductive PyVal where
  | str (s : Str)
  | intv (n : Int)
  | boolv (b : Bool)
  | nonev
  | list (xs : List PyVal)
  | dict (fs : List (Str × PyVal))

/-- Decimal rendering of an integer. -/
def intToStr (n : Int) : Str :=
  if n < 0 then '-' :: natToStr (-n).toNat else natToStr n.toNat

/-- Comma-style joining of rendered pieces. -/
def joinSep (sep : Str) : List Str → Str
  | [] => []
  | [x] => x
  | x :: y :: rest => x ++ sep ++ joinSep sep (y :: rest)

/-- Python `repr()` of a session value (single-quoted strings, `True`/`False`,
`None`, comma-space separators). -/
def pyRepr : PyVal → Str
  | .str s => quoteChar :: (s ++ [quoteChar])
  | .intv n => intToStr n
  | .boolv b => if b then ( "True".data) else ( "False".data)
  | .nonev => ( "None".data)
  | .list xs =>
    '[' :: (joinSep ( ", ".data) (xs.attach.map (fun x => pyRepr x.1)) ++ [']'])
  | .dict fs =>
    lbraceChar ::
      (joinSep ( ", ".data)
        (fs.attach.map (fun p =>
          (quoteChar :: (p.1.1 ++ [quoteChar])) ++ ( ": ".data) ++ pyRepr p.1.2))
        ++ [rbraceChar])
termination_by v => sizeOf v
decreasing_by
  · simp_wf
    have h := List.sizeOf_lt_of_mem x.2
    omega
  · simp_wf
    rcases p with ⟨⟨a, b⟩, hp⟩
    have h := List.sizeOf_lt_of_mem hp
    simp only [Prod.mk.sizeOf_spec] at h
    simp_wf
    omega

/-- Python `str()` of a session value. -/
def pyStr (v : PyVal) : Str :=
  match v with
  | .str s => s
  | _ => pyRepr v

def kItems : Str := "items".data

/-- Python `"items" in x`: key test on dicts, element equality on lists,
substring test on strings; `in` on an int/bool/None raises TypeError. -/
def pyMemItems : PyVal → Except MainErr Bool
  | .dict fs => .ok (fs.any (fun p => p.1 == kItems))
  | .list xs =>
    .ok (xs.any (fun e =>
      match e with
      | .str s => s == kItems
      | _ => false))
  | .str s => .ok (containsSub kItems s)
  | _ => .error .typeError

/-- Python `x[key]` for a string key: dict lookup (KeyError on a miss);
string/list/other subscripting with a string raises TypeError. -/
def pyGetStrKey (k : Str) : PyVal → Except MainErr PyVal
  | .dict fs =>
    match lookupF k fs with
    | some v => .ok v
    | none => .error .keyError
  | _ => .error .typeError

/-- The plain-text fallback of `translate_sections`: strip, split into lines,
keep each stripped non-empty line as a `{"value": line}` item. -/
def linesToItems (s : Str) : List PyVal :=
  (List.splitOn '\n' (pyStrip s)).filterMap (fun l =>
    if (pyStrip l).isEmpty then none else some (.dict [(kValue, .str (pyStrip l))]))

/-- The `translated_items` normalisation of `translate_sections` (main.py):
a string is JSON-parsed inside a `try` that only catches `JSONDecodeError`
(`jsonLoads` is the decoder; `none` models the decode error), then probed for
an `items` member; a dict is probed for `items` directly; a list is
normalised element-wise; anything else becomes a single `str()` item. -/
def normalize_translation (td : PyVal) (jsonLoads : Str → Option PyVal) :
    Except MainErr PyVal :=
  match td with
  | .str s =>
    match jsonLoads s with
    | some j =>
      match pyMemItems j with
      | .error e => .error e
      | .ok true => pyGetStrKey kItems j
      | .ok false => .ok (.list [.dict [(kValue, .str s)]])
    | none => .ok (.list (linesToItems s))
  | .dict fs =>
    if fs.any (fun p => p.1 == kItems) then
      match lookupF kItems fs with
      | some v => .ok v
      | none => .ok (.list [.dict [(kValue, .str (pyStr (.dict fs)))]])
    else .ok (.list [.dict [(kValue, .str (pyStr (.dict fs)))]])
  | .list xs =>
    .ok (.list (xs.map (fun item =>
      match item with
      | .dict fs =>
        if fs.any (fun p => p.1 == kValue) then .dict fs
        else .dict [(kValue, .str (pyStr item))]
      | _ => .dict [(kValue, .str (pyStr item))])))
  | .intv n => .ok (.list [.dict [(kValue, .str (pyStr (.intv n)))]])
  | .boolv b => .ok (.list [.dict [(kValue, .str (pyStr (.boolv b)))]])
  | .nonev => .ok (.list [.dict [(kValue, .str (pyStr .nonev))]])

/-- Python truthiness of a session value. -/
def pyTruthy : PyVal → Bool
  | .str s => ! s.isEmpty
  | .intv n => n != 0
  | .boolv b => b
  | .nonev => false
  | .list xs => ! xs.isEmpty
  | .dict fs => ! fs.isEmpty

/-- Python `len(x)` (TypeError on int/bool/None). -/
def pyLen : PyVal → Except MainErr Nat
  | .str s => .ok s.length
  | .list xs => .ok xs.length
  | .dict fs => .ok fs.length
  | _ => .error .typeError

/-- Python `x[i]` for an integer index: list/string indexing with negative
wrap-around; an int key misses a string-keyed dict (KeyError); anything else
raises TypeError. -/
def pyIndexInt (v : PyVal) (i : Int) : Except MainErr PyVal :=
  match v with
  | .list xs =>
    match normIdx i xs.length with
    | some n => .ok (xs.getD n .nonev)
    | none => .error .indexError
  | .str s =>
    match normIdx i s.length with
    | some n => .ok (.str [s.getD n ' '])
    | none => .error .indexError
  | .dict _ => .error .keyError
  | _ => .error .typeError

/-- `translated_items[idx]["value"]`, then pydantic's `value: str` check. -/
def extractValue (item : PyVal) : Except MainErr Str :=
  match pyGetStrKey kValue item with
  | .error e => .error e
  | .ok (.str s) => .ok s
  | .ok _ => .error .validationError

/-- A request section as `/translate-sections` receives it
(content entries are `(type, value)` pairs). -/
structure PageSection where
  section_id : Str
  title : Str
  display_title : Option Str
  content : List (Str × Str)

/-- A translated section as the endpoint returns it. -/
structure TranslatedSection where
  section_id : Str
  title : Str
  display_title : Option Str
  content : List (Str × Str)

/-- The per-content-item loop of `translate_sections`: index `j + start` when
within the translated list, else repeat the last translated item (or the
`[No translation available]` placeholder when the list is falsy). -/
def map_content_items (ti : PyVal) (start : Nat) : Nat → List (Str × Str) →
    Except MainErr (List (Str × Str))
  | _, [] => .ok []
  | j, (ty, _origVal) :: rest =>
    match pyLen ti with
    | .error e => .error e
    | .ok len =>
      match (if j + start < len then
               match pyIndexInt ti ((j + start : Nat) : Int) with
               | .error e => .error e
               | .ok item => extractValue item
             else if pyTruthy ti then
               match pyIndexInt ti (-1) with
               | .error e => .error e
               | .ok item => extractValue item
             else .ok ( "[No translation available]".data) : Except MainErr Str) with
      | .error e => .error e
      | .ok v =>
        match map_content_items ti start (j + 1) rest with
        | .error e => .error e
        | .ok restMapped => .ok ((ty, v) :: restMapped)

/-- The per-section mapping of `translate_sections`: when the translated list
is truthy and the section has a display title, item 0 becomes the translated
display title and content starts at index 1. -/
def map_section (target_language : Str) (orig : PageSection) (ti : PyVal) :
    Except MainErr TranslatedSection :=
  match (if pyTruthy ti && orig.display_title.isSome then
           match pyIndexInt ti 0 with
           | .error e => .error e
           | .ok item0 =>
             match extractValue item0 with
             | .error e => .error e
             | .ok dt => .ok ((some dt : Option Str), 1)
         else .ok ((none : Option Str), 0) : Except MainErr (Option Str × Nat)) with
  | .error e => .error e
  | .ok (dt, start) =>
    match map_content_items ti start 0 orig.content with
    | .error e => .error e
    | .ok cs =>
      .ok { section_id := orig.section_id
            title := orig.title ++ ( " (".data) ++ target_language ++ ( ")".data)
            display_title := dt
            content := cs }

/-- A translated-items list whose entries are all well-formed value dicts. -/
def mkValueItems (vs : List Str) : PyVal :=
  .list (vs.map (fun v => .dict [(kValue, .str v)]))

/-- The two-item section of the C5 counterexample. -/
def ceSection : PageSection :=
  { section_id := ( "s1".data)
    title := ( "Hero".data)
    display_title := none
    content := [(( "content".data), ( "Hello".data)), (( "content".data), ( "World".data))] }

/-- C5 (counterexample): a plain-text capability reply "Hola" for a section of
two items — the second input item is not left in its original language
("World"); it receives a copy of the last translated value ("Hola"). -/
theorem translate_sections_repeat_last :
    normalize_translation (.str ( "Hola".data)) (fun _ => none)
        = .ok (.list [.dict [(kValue, .str ( "Hola".data))]]) ∧
    map_section ( "Spanish".data) ceSection (.list [.dict [(kValue, .str ( "Hola".data))]])
        = .ok { section_id := ( "s1".data)
                title := ( "Hero (Spanish)".data)
                display_title := none
                content := [(( "content".data), ( "Hola".data)),
                            (( "content".data), ( "Hola".data))] } ∧
    ( "Hola".data) ≠ ( "World".data) := by
  refine ⟨rfl, rfl, by decide⟩

/-- Element at the old length of a list extended by one element. -/
theorem getD_append_singleton {α : Type} (d : α) :
    ∀ (l : List α) (a : α), (l ++ [a]).getD l.length d = a
  | [], _ => rfl
  | _ :: t, a => getD_append_singleton d t a

/-- C5 (amended): the result parsing attempts a structured parse and falls
back to line-splitting; a plain-text reply (JSON decode failure) and a list
reply are always parsed without raising, but a structured payload can raise
(a JSON scalar makes the `items` membership test a TypeError, items without a
string `value` raise when indexed); and an input content item beyond the end
of the translated list receives the last translated value — not its original
value. -/
theorem translate_sections_parsing :
    (∀ (s : Str) (jl : Str → Option PyVal), jl s = none →
      normalize_translation (.str s) jl = .ok (.list (linesToItems s))) ∧
    (∀ (xs : List PyVal) (jl : Str → Option PyVal),
      ∃ r, normalize_translation (.list xs) jl = .ok (.list r)) ∧
    (∀ (vs : List Str) (last : Str) (start j : Nat) (ty ov : Str),
      vs.length + 1 ≤ j + start →
      map_content_items (mkValueItems (vs ++ [last])) start j [(ty, ov)]
        = .ok [(ty, last)]) := by
  refine ⟨?_, ?_, ?_⟩
  · intro s jl h
    simp [normalize_translation, h]
  · intro xs jl
    exact ⟨_, rfl⟩
  · intro vs last start j ty ov h
    have hlen : pyLen (mkValueItems (vs ++ [last])) = .ok (vs.length + 1) := by
      simp [mkValueItems, pyLen]
    have htrue : pyTruthy (mkValueItems (vs ++ [last])) = true := by
      simp [mkValueItems, pyTruthy]
    have hidx : normIdx (-1) (vs.length + 1) = some vs.length := by
      unfold normIdx
      rw [if_neg (by omega), if_pos (by omega)]
      congr 1
      omega
    have hind : pyIndexInt (mkValueItems (vs ++ [last])) (-1)
        = .ok (.dict [(kValue, .str last)]) := by
      simp only [mkValueItems, pyIndexInt, List.length_map, List.length_append,
        List.length_cons, List.length_nil, Nat.zero_add, hidx]
      have h3 : (List.map (fun v => PyVal.dict [(kValue, PyVal.str v)]) (vs ++ [last])).getD
          vs.length PyVal.nonev = PyVal.dict [(kValue, PyVal.str last)] := by
        rw [List.map_append, List.map_cons, List.map_nil]
        have h2 := getD_append_singleton PyVal.nonev
          (vs.map (fun v => PyVal.dict [(kValue, PyVal.str v)]))
          (PyVal.dict [(kValue, PyVal.str last)])
        rw [List.length_map] at h2
        exact h2
      rw [h3]
    have hextract : extractValue (.dict [(kValue, .str last)]) = .ok last := by
      simp [extractValue, pyGetStrKey, lookupF]
    simp only [map_content_items, hlen]
    rw [if_neg (by omega), htrue]
    simp only [if_true, hind, hextract, map_content_items]

/-- Witness for C5 (amended) at concrete inputs: a plain-text reply falls back
to line items, a list reply parses, and the out-of-range second item receives
the last translated value. -/
theorem translate_sections_parsing_witness :
    normalize_translation (.str ( "Hola mundo".data)) (fun _ => none)
        = .ok (.list (linesToItems ( "Hola mundo".data))) ∧
    map_content_items (mkValueItems ([( "Hola".data)] ++ [( "Adios".data)])) 0 5
        [(( "content".data), ( "World".data))]
        = .ok [(( "content".data), ( "Adios".data))] :=
  ⟨translate_sections_parsing.1 ( "Hola mundo".data) (fun _ => none) rfl,
   translate_sections_parsing.2.2 [( "Hola".data)] ( "Adios".data) 0 5
     ( "content".data) ( "World".data) (by decide)⟩

/-
Component: Translation/Review/Revision stages and the batch loop
(fullstack_app/backend/translation_agency/agent.py)
-/

/-- The glossary loaded by `load_translation_resources`. -/
def default_glossary : Glossary :=
  [(( "grinder".data), [(( "Spanish".data), ( "jugador dedicado".data)),
                        (( "French".data), ( "joueur acharné".data))]),
   (( "grinders".data), [(( "Spanish".data), ( "jugadores dedicados".data)),
                         (( "French".data), ( "joueurs acharnés".data))]),
   (( "poker".data), [(( "Spanish".data), ( "póker".data)),
                      (( "French".data), ( "poker".data))]),
   (( "login".data), [(( "Spanish".data), ( "iniciar sesión".data)),
                      (( "French".data), ( "se connecter".data))]),
   (( "signup".data), [(( "Spanish".data), ( "registrarse".data)),
                       (( "French".data), ( "s'inscrire".data))]),
   (( "dashboard".data), [(( "Spanish".data), ( "panel".data)),
                          (( "French".data), ( "tableau de bord".data))]),
   (( "settings".data), [(( "Spanish".data), ( "configuración".data)),
                         (( "French".data), ( "paramètres".data))])]

/-- The brand terms loaded by `load_translation_resources`. -/
def default_brand_terms : List Str :=
  [( "Octopi".data), ( "Octopi Poker".data), ( "The Vault".data), ( "Ask George".data),
   ( "Octopi Store".data), ( "PokerGO".data), ( "WSOP".data), ( "Triton".data),
   ( "ICM".data), ( "GTO".data), ( "HUD".data)]

/-- A clarifying question record as stored in the session state. -/
structure CQ where
  batch_type : Str
  item_path : Str
  question : Str
  answered : Bool
  answer : Option Str

/-- A review feedback record (`STATE_BATCH_FEEDBACK` entries); the message
string is abstracted to the `ReviewIssue` that fired. -/
structure Feedback where
  path : Str
  issue : ReviewIssue
  original : Str
  current_translation : Option Str

/-- The session-state slice driving the batch pipeline. -/
structure AgencyState where
  content_batches : List (Str × List OrgItem)
  target_language : Str
  glossary : Glossary
  brand_terms : List Str
  clarifying_questions : List CQ
  batch_feedback : List Feedback
  current_batch : Option Str
  completed_batches : List Str
  revision_needed : Bool
  review_result : Str

/-- The opaque LLM capability of each stage; `none` models the call raising. -/
structure Capability where
  translate : Str → Option Str
  shorter : Str → Option Str
  quality : Str → Str → Option Str
  revise : Str → Str → Option Str

/-- The ambiguity heuristics of `check_for_clarification_needed` (question
texts modelled without quote punctuation, which never affects control flow). -/
def ambiguous_patterns : List (Str × Str) :=
  [(( "play".data), ( "Does play refer to gaming action or video playback?".data)),
   (( "run".data), ( "Does run mean execute/operate or physical running?".data)),
   (( "bank".data), ( "Does bank refer to financial institution or poker bankroll?".data)),
   (( "fold".data), ( "Does fold refer to poker action or user interface collapse?".data)),
   (( "table".data), ( "Does table refer to poker table or data table?".data))]

/-- `check_for_clarification_needed(item, batch_type, target_language)`: the
first ambiguous pattern contained in the lowercased original wins; otherwise
very short texts in button/navigation batches ask whether to translate at
all.  (The target language is unused by the source as well.) -/
def check_for_clarification_needed (item : OrgItem) (batch_type : Str) : Option Str :=
  match ambiguous_patterns.find? (fun p => containsSub p.1 (lowerStr item.original)) with
  | some p =>
    some (p.2 ++ ( " Context: ".data) ++ batch_type ++ ( " section, text: ".data) ++ item.original)
  | none =>
    if item.original.length ≤ 3
        && (batch_type == ( "buttons".data) || batch_type == ( "navigation".data)) then
      some (( "Should ".data) ++ item.original
        ++ ( " be translated or kept as-is? It appears in ".data) ++ batch_type
        ++ ( " section.".data))
    else none

/-- `answer_clarifying_question(question, batch_type, state)`:
`state_mentions_poker` stands for Python's `"poker" in str(state)` probe of
the whole session state. -/
def answer_clarifying_question (state_mentions_poker : Bool) (q : CQ) (batch_type : Str) : Str :=
  if containsSub ( "play".data) (lowerStr q.question) then
    if batch_type == ( "buttons".data) || containsSub ( "game".data) (lowerStr q.item_path) then
      ( "Gaming action - translate as game play".data)
    else ( "Video playback - translate as media play".data)
  else if containsSub ( "bank".data) (lowerStr q.question) then
    if state_mentions_poker then ( "Poker bankroll - use gambling-specific translation".data)
    else ( "Financial institution - use standard banking term".data)
  else if containsSub ( "table".data) (lowerStr q.question) then
    if batch_type == ( "navigation".data) || containsSub ( "data".data) (lowerStr q.item_path) then
      ( "Data table - use UI table translation".data)
    else ( "Poker table - use gambling-specific translation".data)
  else if containsSub ( "keep as-is".data) (lowerStr q.question) then
    ( "Translate - maintain consistency with rest of interface".data)
  else ( "Use context-appropriate translation maintaining brand consistency".data)

/-- Replace the items of one batch in the content-batches dict. -/
def setBatch (bt : Str) (items : List OrgItem) :
    List (Str × List OrgItem) → List (Str × List OrgItem)
  | [] => []
  | p :: rest => if p.1 == bt then (p.1, items) :: rest else p :: setBatch bt items rest

/-- Per-item body of `translate_content_batch`: a pending item either raises
a clarifying question (status `needs_clarification`) or is translated through
`apply_translation_rules`, shortened when over budget, and marked
`translated`. -/
def processPendingItem (cap : Capability) (lang : Str) (glossary : Glossary)
    (brand : List Str) (batch_type : Str) (item : OrgItem) : OrgItem × Option CQ :=
  if item.status = ( "pending".data) then
    match check_for_clarification_needed item batch_type with
    | some q =>
      ({ item with status := ( "needs_clarification".data) },
       some { batch_type := batch_type, item_path := item.path, question := q,
              answered := false, answer := none })
    | none =>
      let t := apply_translation_rules cap.translate item.original lang glossary brand
      let t2 := if t.length > item.max_chars
                then get_shorter_translation cap.shorter item.original item.max_chars
                else t
      ({ item with translated := some t2, status := ( "translated".data) }, none)
  else (item, none)

/-- `translate_content_batch`: pick the first batch that is not completed and
still has a pending item, process its pending items, record new questions,
and set the current batch; when no such batch exists the state is returned
unchanged ("all_batches_completed"). -/
def translate_content_batch (cap : Capability) (st : AgencyState) : AgencyState :=
  match st.content_batches.find? (fun p =>
      ! st.completed_batches.contains p.1
        && p.2.any (fun it => it.status == ( "pending".data))) with
  | none => st
  | some (bt, items) =>
    let processed := items.map (processPendingItem cap st.target_language st.glossary st.brand_terms bt)
    { st with
      content_batches := setBatch bt (processed.map Prod.fst) st.content_batches
      current_batch := some bt
      clarifying_questions := st.clarifying_questions ++ processed.filterMap Prod.snd }

/-- Per-item body of the review loop: only items in status `translated` are
reviewed; a finding flips them to `needs_revision` and is recorded, a clean
review approves them.  Items in any other status are left untouched. -/
def reviewItem (quality : Str → Str → Option Str) (item : OrgItem) : OrgItem × Option Feedback :=
  if item.status = ( "translated".data) then
    match review_translation_item quality item.original (item.translated.getD []) item.max_chars with
    | some iss =>
      ({ item with status := ( "needs_revision".data) },
       some { path := item.path, issue := iss, original := item.original,
              current_translation := item.translated })
    | none => ({ item with status := ( "approved".data) }, none)
  else (item, none)

/-- The `review_result` message written when items need revision. -/
def revision_message (n : Nat) (bt : Str) : Str :=
  ( "Found ".data) ++ natToStr n ++ ( " items needing revision in ".data) ++ bt
    ++ ( " batch".data)

/-- `review_batch_translation`: with no current batch (or a falsy one, or one
missing from the dict) the state is unchanged (error return); unanswered
clarifying questions are all answered and revision is requested before any
quality review; otherwise every `translated` item of the current batch is
reviewed, findings become the batch feedback, and the batch is completed with
`review_result = "EXIT"` exactly when no reviewed item had a finding. -/
def review_batch_translation (quality : Str → Str → Option Str)
    (state_mentions_poker : Bool) (st : AgencyState) : AgencyState :=
  match st.current_batch with
  | none => st
  | some bt =>
    if bt.isEmpty then st
    else
      match lookupF bt st.content_batches with
      | none => st
      | some batch =>
        if st.clarifying_questions.any (fun q => ! q.answered) then
          { st with
            clarifying_questions := st.clarifying_questions.map (fun q =>
              if q.answered then q
              else { q with
                     answer := some (answer_clarifying_question state_mentions_poker q bt)
                     answered := true })
            revision_needed := true }
        else
          if ((batch.map (reviewItem quality)).filterMap Prod.snd).length > 0 then
            { st with
              content_batches := setBatch bt ((batch.map (reviewItem quality)).map Prod.fst) st.content_batches
              batch_feedback := (batch.map (reviewItem quality)).filterMap Prod.snd
              revision_needed := true
              review_result :=
                revision_message ((batch.map (reviewItem quality)).filterMap Prod.snd).length bt }
          else
            { st with
              content_batches := setBatch bt ((batch.map (reviewItem quality)).map Prod.fst) st.content_batches
              batch_feedback := []
              completed_batches := st.completed_batches ++ [bt]
              revision_needed := false
              review_result := ( "EXIT".data) }

/-- `create_revised_translation`: post-process a successful reply (strip,
drop markdown fences, truncate over the budget); on exception return the
current translation unchanged.  (Feedback text, language, glossary and brand
terms only shape the prompt and are absorbed into the capability.) -/
def create_revised_translation (reviseCap : Str → Str → Option Str)
    (original current : Str) (max_chars : Nat) : Str :=
  match reviseCap original current with
  | some r =>
    let t := pyStrip r
    let t2 := if startsWithL ( "```".data) t then pyStrip (replaceAllCS ( "```".data) [] t) else t
    if t2.length > max_chars then t2.take max_chars else t2
  | none => current

/-- One feedback entry of `revise_batch_translation`: revise the first item of
the batch matching the feedback's path in status `needs_revision`. -/
def reviseItemForFeedback (reviseCap : Str → Str → Option Str) (fb : Feedback) :
    List OrgItem → List OrgItem
  | [] => []
  | it :: rest =>
    if it.path == fb.path && it.status == ( "needs_revision".data) then
      { it with
        translated := some (create_revised_translation reviseCap it.original
          (it.translated.getD []) it.max_chars)
        status := ( "revised".data) } :: rest
    else it :: reviseItemForFeedback reviseCap fb rest

/-- `revise_batch_translation`: nothing to do without feedback; otherwise each
feedback entry revises its item in the current batch, then the feedback is
cleared and the revision flag reset. -/
def revise_batch_translation (reviseCap : Str → Str → Option Str) (st : AgencyState) : AgencyState :=
  if st.batch_feedback.isEmpty then st
  else
    match st.current_batch with
    | none => { st with batch_feedback := [], revision_needed := false }
    | some bt =>
      { st with
        content_batches := setBatch bt
          (st.batch_feedback.foldl (fun b fb => reviseItemForFeedback reviseCap fb b)
            ((lookupF bt st.content_batches).getD []))
          st.content_batches
        batch_feedback := []
        revision_needed := false }

/-- One pass of the batch loop (`BatchProcessingBody`): translate, review,
then — unless the reviewer's `EXIT` escalates out of the loop — revise.
The `check_for_batch_review_exit` callback compares the stripped
`review_result` against `"EXIT"`; the model assumes the reviewer agent relays
the tool's `review_result` through its output key unchanged. -/
def loop_body (cap : Capability) (poker : Bool) (st : AgencyState) : AgencyState × Bool :=
  let st1 := translate_content_batch cap st
  let st2 := review_batch_translation cap.quality poker st1
  if pyStrip st2.review_result = ( "EXIT".data) then (st2, true)
  else (revise_batch_translation cap.revise st2, false)

/-- `batch_processing_loop` (`LoopAgent` with `max_iterations`): run the body
at most `N` times, stopping early on escalation; the second component counts
the passes actually executed. -/
def batch_processing_loop (cap : Capability) (poker : Bool) : Nat → AgencyState → AgencyState × Nat
  | 0, st => (st, 0)
  | n + 1, st =>
    if (loop_body cap poker st).2 then ((loop_body cap poker st).1, 1)
    else ((batch_processing_loop cap poker n (loop_body cap poker st).1).1,
          (batch_processing_loop cap poker n (loop_body cap poker st).1).2 + 1)

/-- A translated item that passes review (length 4 within budget 4, no brand
terms, non-empty). -/
def itemA : OrgItem :=
  { path := ( "sec.title".data)
    original := ( "Hi".data)
    typ := .s ( "header".data)
    content_category := ( "headers".data)
    original_length := 2
    max_chars := 4
    translated := some ( "Hola".data)
    status := ( "translated".data) }

/-- An item stuck in `needs_clarification` (never translated). -/
def itemB : OrgItem :=
  { path := ( "sec.play".data)
    original := ( "Play".data)
    typ := .s ( "button".data)
    content_category := ( "headers".data)
    original_length := 4
    max_chars := 8
    translated := none
    status := ( "needs_clarification".data) }

/-- Session state for the C6 counterexample: the current batch holds a passing
translated item and an untranslated `needs_clarification` item; its question
has already been answered. -/
def st0 : AgencyState :=
  { content_batches := [(( "headers".data), [itemA, itemB])]
    target_language := ( "Spanish".data)
    glossary := default_glossary
    brand_terms := default_brand_terms
    clarifying_questions :=
      [{ batch_type := ( "headers".data)
         item_path := ( "sec.play".data)
         question := ( "Does play refer to gaming action or video playback?".data)
         answered := true
         answer := some ( "Gaming action - translate as game play".data) }]
    batch_feedback := []
    current_batch := some ( "headers".data)
    completed_batches := []
    revision_needed := true
    review_result := [] }

/-- `itemA` after a clean review. -/
def itemAApproved : OrgItem := { itemA with status := ( "approved".data) }

/-- C6 (counterexample): the batch is marked approved (completed, EXIT,
revision flag cleared) although `itemB` was never reviewed nor translated —
it stays in `needs_clarification` — so approval is not equivalent to "every
item passed review with no finding". -/
theorem review_batch_approves_with_unreviewed_item :
    (review_batch_translation (fun _ _ => none) false st0).completed_batches
        = [( "headers".data)] ∧
    (review_batch_translation (fun _ _ => none) false st0).review_result = ( "EXIT".data) ∧
    (review_batch_translation (fun _ _ => none) false st0).revision_needed = false ∧
    lookupF ( "headers".data)
        (review_batch_translation (fun _ _ => none) false st0).content_batches
      = some [itemAApproved, itemB] ∧
    itemB.status = ( "needs_clarification".data) := by
  refine ⟨rfl, rfl, rfl, rfl, rfl⟩

/-- The reviewer's revision message never equals the exit signal. -/
theorem revision_message_ne_exit (n : Nat) (bt : Str) :
    revision_message n bt ≠ ( "EXIT".data) := by
  unfold revision_message
  intro h
  rw [show ( "Found ".data) = 'F' :: ( "ound ".data) from rfl] at h
  simp [List.cons_append] at h

/-- C6 (amended): with a present non-empty current batch and no unanswered
questions, the batch is appended to the completed list with
`review_result = "EXIT"` and the revision flag cleared **iff** no item in
status `translated` produced a review finding — items in any other status
(pending, needs_clarification, approved, revised) are simply ignored by the
pass.  When some reviewed item has a finding, the findings are carried
forward as the batch feedback and the revision flag is set. -/
theorem review_batch_approval_iff :
    ∀ (quality : Str → Str → Option Str) (poker : Bool) (st : AgencyState) (bt : Str)
      (batch : List OrgItem),
      st.current_batch = some bt →
      bt.isEmpty = false →
      lookupF bt st.content_batches = some batch →
      st.clarifying_questions.any (fun q => ! q.answered) = false →
      (((batch.map (reviewItem quality)).filterMap Prod.snd = []) →
        (review_batch_translation quality poker st).completed_batches
            = st.completed_batches ++ [bt] ∧
        (review_batch_translation quality poker st).review_result = ( "EXIT".data) ∧
        (review_batch_translation quality poker st).revision_needed = false ∧
        (review_batch_translation quality poker st).batch_feedback = []) ∧
      (((batch.map (reviewItem quality)).filterMap Prod.snd ≠ []) →
        (review_batch_translation quality poker st).completed_batches = st.completed_batches ∧
        (review_batch_translation quality poker st).review_result ≠ ( "EXIT".data) ∧
        (review_batch_translation quality poker st).revision_needed = true ∧
        (review_batch_translation quality poker st).batch_feedback
            = (batch.map (reviewItem quality)).filterMap Prod.snd) ∧
      (∀ it ∈ batch, (reviewItem quality it).2 = none ↔
        (it.status ≠ ( "translated".data) ∨
          review_translation_item quality it.original (it.translated.getD [])
            it.max_chars = none)) := by
  intro quality poker st bt batch hcb hbe hlk hq
  have hstep : review_batch_translation quality poker st =
      if ((batch.map (reviewItem quality)).filterMap Prod.snd).length > 0
      then { st with
             content_batches :=
               setBatch bt ((batch.map (reviewItem quality)).map Prod.fst) st.content_batches
             batch_feedback := (batch.map (reviewItem quality)).filterMap Prod.snd
             revision_needed := true
             review_result :=
               revision_message ((batch.map (reviewItem quality)).filterMap Prod.snd).length bt }
      else { st with
             content_batches :=
               setBatch bt ((batch.map (reviewItem quality)).map Prod.fst) st.content_batches
             batch_feedback := []
             completed_batches := st.completed_batches ++ [bt]
             revision_needed := false
             review_result := ( "EXIT".data) } := by
    unfold review_batch_translation
    simp only [hcb, hbe, hlk, hq, Bool.false_eq_true, if_false]
  refine ⟨?_, ?_, ?_⟩
  · intro hnil
    rw [hstep, if_neg (by simp [hnil])]
    exact ⟨rfl, rfl, rfl, rfl⟩
  · intro hne
    rw [hstep, if_pos (by simpa using List.length_pos.mpr hne)]
    exact ⟨rfl, revision_message_ne_exit _ bt, rfl, rfl⟩
  · intro it _hit
    by_cases hs : it.status = ( "translated".data)
    · simp only [reviewItem, if_pos hs]
      cases hr : review_translation_item quality it.original (it.translated.getD [])
          it.max_chars with
      | some iss => simp [hs, hr]
      | none => simp [hs, hr]
    · simp [reviewItem, hs]

/-- Witness for C6 (amended) at the concrete state `st0`: every hypothesis is
discharged by computation and the approval conclusions follow. -/
theorem review_batch_approval_iff_witness :
    (review_batch_translation (fun _ _ => none) false st0).completed_batches
        = st0.completed_batches ++ [( "headers".data)] ∧
    (review_batch_translation (fun _ _ => none) false st0).review_result = ( "EXIT".data) :=
  ⟨((review_batch_approval_iff (fun _ _ => none) false st0 ( "headers".data) [itemA, itemB]
      rfl rfl rfl rfl).1 rfl).1,
   ((review_batch_approval_iff (fun _ _ => none) false st0 ( "headers".data) [itemA, itemB]
      rfl rfl rfl rfl).1 rfl).2.1⟩

/-- A capability that raises on every call. -/
def failCap : Capability :=
  { translate := fun _ => none
    shorter := fun _ => none
    quality := fun _ _ => none
    revise := fun _ _ => none }

/-- A single pending item whose text triggers no heuristic. -/
def item7 : OrgItem :=
  { path := ( "sec.title".data)
    original := ( "Hello World".data)
    typ := .s ( "header".data)
    content_category := ( "headers".data)
    original_length := 11
    max_chars := calculate_max_chars 11 ( "Spanish".data)
    translated := none
    status := ( "pending".data) }

/-- The scenario-D state: one batch, one pending item, nothing translated. -/
def st7 : AgencyState :=
  { content_batches := [(( "headers".data), [item7])]
    target_language := ( "Spanish".data)
    glossary := default_glossary
    brand_terms := default_brand_terms
    clarifying_questions := []
    batch_feedback := []
    current_batch := none
    completed_batches := []
    revision_needed := false
    review_result := [] }

/-- `item7` as the pipeline leaves it when every capability call raises: the
fallback keeps the original text and the review (whose quality probe also
raises) approves it. -/
def item7Final : OrgItem :=
  { item7 with translated := some ( "Hello World".data), status := ( "approved".data) }

/-- C7 (counterexample): with a capability that raises on every call and
budget 3, the loop does *not* run three passes and reach any forced
`exhausted` state — the translator's exception handler substitutes the
fallback (identity) translation, the reviewer's failed quality probe counts
as approval, and the batch is `approved` with the original text after one
single pass. -/
theorem loop_fallback_approves_not_exhausts :
    (batch_processing_loop failCap false 3 st7).2 = 1 ∧
    lookupF ( "headers".data) (batch_processing_loop failCap false 3 st7).1.content_batches
      = some [item7Final] ∧
    item7Final.status = ( "approved".data) ∧
    item7Final.translated = some ( "Hello World".data) := by
  refine ⟨rfl, rfl, rfl, rfl⟩

/-- The loop executes at most `N` passes. -/
theorem batch_processing_loop_bounded :
    ∀ (cap : Capability) (poker : Bool) (N : Nat) (st : AgencyState),
      (batch_processing_loop cap poker N st).2 ≤ N
  | _, _, 0, _ => Nat.le_refl 0
  | cap, poker, N + 1, st => by
    simp only [batch_processing_loop]
    by_cases hb : (loop_body cap poker st).2 = true
    · rw [if_pos hb]
      exact Nat.succ_le_succ (Nat.zero_le N)
    · rw [if_neg hb]
      exact Nat.succ_le_succ (batch_processing_loop_bounded cap poker N (loop_body cap poker st).1)

/-- C7 (amended): the translate/review/revise cycle executes at most
`max_iterations` passes (exiting early when a review signals EXIT); there is
no forced `exhausted` transition — in the scenario where the capability
raises on every call with budget 3, the batch is approved with the fallback
(identity) translation after a single pass, the job completes, and the item
keeps its original text. -/
theorem batch_processing_loop_behavior :
    (∀ (cap : Capability) (poker : Bool) (N : Nat) (st : AgencyState),
      (batch_processing_loop cap poker N st).2 ≤ N) ∧
    ((batch_processing_loop failCap false 3 st7).1.completed_batches = [( "headers".data)] ∧
     (batch_processing_loop failCap false 3 st7).1.review_result = ( "EXIT".data) ∧
     (batch_processing_loop failCap false 3 st7).2 = 1) :=
  ⟨batch_processing_loop_bounded, rfl, rfl, rfl⟩
